import Mathlib

/-!
ContentManagerModel (kiwix-desktop, `src/contentmanagermodel.cpp`)

A shallow embedding of the tree/table view-model.  Objects that the C++ code
reaches through pointers (`std::shared_ptr<RowNode>`, `std::weak_ptr<RowNode>`,
`QModelIndex::internalPointer`) live in an explicit heap; an address is a
position in that heap.  Dereferencing a null or dangling pointer is undefined
behaviour in the source and is `none` here.  C++ `int` values are mathematical
integers: every claim is about cursors and counts far inside the `int` range.
Signals emitted to the view and calls forwarded to collaborators are returned
as an explicit list of events, in program order.
-/

namespace Kiwix

/-! ## Qt value types -/

/-- Bytes of a `QByteArray`. -/
abbrev QByteArray := List Nat

/-- Library functions the model calls but which are not part of this repository
(Qt, libkiwix).  They are parameters of the embedding. -/
structure Lib where
  /-- Qt `QString::fromUtf8`, used by `QVariant::toString` on a byte array. -/
  fromUtf8 : QByteArray → String
  /-- Qt `QString::toULongLong`. -/
  parseULongLong : String → Nat
  /-- libkiwix `kiwix::beautifyFileSize`. -/
  beautifyFileSize : Nat → String
  /-- Qt `QObject::tr`. -/
  tr : String → String

/-- The `QVariant` values that occur in a record or a node column. -/
inductive QVariant where
  | invalid
  | byteArray (b : QByteArray)
  | string (s : String)
  | uLongLong (n : Nat)
  deriving DecidableEq, Repr

/-- Test `v.type() == QVariant::ByteArray`. -/
def QVariant.isByteArray : QVariant → Bool
  | .byteArray _ => true
  | _ => false

/-- Qt `QVariant::toString`. -/
def QVariant.toString (lib : Lib) : QVariant → String
  | .invalid => ""
  | .byteArray b => lib.fromUtf8 b
  | .string s => s
  | .uLongLong n => ToString.toString n

/-- Qt `QVariant::toULongLong`. -/
def QVariant.toULongLong (lib : Lib) : QVariant → Nat
  | .invalid => 0
  | .byteArray b => lib.parseULongLong (lib.fromUtf8 b)
  | .string s => lib.parseULongLong s
  | .uLongLong n => n

/-- A `QMap<QString, α>`: at most one entry per key. -/
abbrev QMap (α : Type) := List (String × α)

/-- Qt `QMap::constFind`: the value stored under `k`, `none` for `constEnd()`. -/
def QMap.constFind {α : Type} (m : QMap α) (k : String) : Option α :=
  List.lookup k m

/-- Qt `QMap::contains`. -/
def QMap.contains {α : Type} (m : QMap α) (k : String) : Bool :=
  (QMap.constFind m k).isSome

/-- The assignment `m[k] = v`: replaces the value of an existing key, adds the
entry otherwise. -/
def QMap.assign {α : Type} : QMap α → String → α → QMap α
  | [], k, v => [(k, v)]
  | (k', v') :: rest, k, v =>
    if k' = k then (k, v) :: rest else (k', v') :: QMap.assign rest k v

/-- Qt `QMap::size`. -/
def QMap.size {α : Type} (m : QMap α) : Nat := List.length m

/-- A record: `QMap<QString, QVariant>` of named fields. -/
abbrev BookInfo := List (String × QVariant)

/-- The read `bookItem[key]`: a default-constructed (invalid) `QVariant` when the
key is absent. -/
def BookInfo.get (b : BookInfo) (key : String) : QVariant :=
  (List.lookup key b).getD QVariant.invalid

abbrev BookInfoList := List BookInfo

/-! ## Node hierarchy

`node.h`, `rownode.cpp` and `descriptionnode.cpp` are not among the sources; the
two node classes are modelled from section 3 and 4.1 of the specification. -/

/-- Address of a node in the heap. -/
abbrev Ptr := Nat

/-- Handle of a shared `DownloadState` object owned by the download tracker. -/
abbrev DownloadState := Nat

/-- Modelled from the spec: class `RowNode` (rownode.h is missing), a
multi-column node that owns an ordered sequence of children, a nullable
download-state reference and a weak back-reference to its parent. -/
structure RowNode where
  m_itemData : List QVariant
  m_bookId : String
  m_parentItem : Option Ptr
  m_childItems : List Ptr
  m_downloadState : Option DownloadState
  deriving DecidableEq, Repr

/-- Modelled from the spec: class `DescriptionNode` (descriptionnode.h is
missing), a leaf holding the description text only. -/
structure DescriptionNode where
  m_desc : String
  m_parentItem : Option Ptr
  deriving DecidableEq, Repr

/-- Modelled from the spec: the polymorphic `Node` (node.h is missing), closed
over its two variants. -/
inductive Node where
  | rowNode (n : RowNode)
  | descriptionNode (d : DescriptionNode)
  deriving DecidableEq, Repr

/-- Modelled from the spec: `RowNode::appendChild` adds a child at the end of
the child sequence. -/
def RowNode.appendChild (n : RowNode) (child : Ptr) : RowNode :=
  { n with m_childItems := n.m_childItems ++ [child] }

/-- Modelled from the spec: `RowNode::setDownloadState` replaces the nullable
download-state reference. -/
def RowNode.setDownloadState (n : RowNode) (ds : Option DownloadState) : RowNode :=
  { n with m_downloadState := ds }

/-- Modelled from the spec: `RowNode::setIconData` ("exposes icon-data
mutation") stores the image bytes in column 0. -/
def RowNode.setIconData (n : RowNode) (imageData : QByteArray) : RowNode :=
  { n with m_itemData := n.m_itemData.set 0 (QVariant.byteArray imageData) }

/-- Modelled from the spec: `Node::columnCount`, 6 for a row node and a fixed 1
for a description node. -/
def Node.columnCount : Node → Int
  | .rowNode _ => 6
  | .descriptionNode _ => 1

/-- Modelled from the spec: `Node::data(column)`.  A row node returns the stored
value for a column within range and an undefined value otherwise; a description
node ignores the requested column. -/
def Node.data : Node → Int → QVariant
  | .rowNode n, column =>
    if 0 ≤ column ∧ column < n.m_itemData.length then
      (n.m_itemData[column.toNat]?).getD QVariant.invalid
    else QVariant.invalid
  | .descriptionNode d, _ => QVariant.string d.m_desc

/-- Modelled from the spec: `Node::childCount`; a description node is a leaf. -/
def Node.childCount : Node → Int
  | .rowNode n => n.m_childItems.length
  | .descriptionNode _ => 0

/-- Modelled from the spec: `Node::child(row)`, bounds-checked, a null pointer
when `row` is out of range. -/
def Node.child : Node → Int → Option Ptr
  | .rowNode n, row =>
    if 0 ≤ row ∧ row < n.m_childItems.length then n.m_childItems[row.toNat]? else none
  | .descriptionNode _, _ => none

/-- Modelled from the spec: `Node::parentItem`, the locked weak back-reference. -/
def Node.parentItem : Node → Option Ptr
  | .rowNode n => n.m_parentItem
  | .descriptionNode d => d.m_parentItem

/-- Modelled from the spec: `Node::getBookId`, empty for a non-row node. -/
def Node.getBookId : Node → String
  | .rowNode n => n.m_bookId
  | .descriptionNode _ => ""

/-- Position of `p` in a child sequence, `none` when it does not occur. -/
def positionOf (p : Ptr) : List Ptr → Option Nat
  | [] => none
  | q :: rest => if q = p then some 0 else (positionOf p rest).map (· + 1)

/-- Modelled from the spec: `Node::row` of the node at address `p`: its index
within the parent's child sequence, 0 for a node without parent.  The spec
leaves the result undefined when the node is not among its parent's children. -/
def Node.row (heap : List Node) (p : Ptr) : Option Int :=
  match heap[p]? with
  | none => none
  | some node =>
    match node.parentItem with
    | none => some 0
    | some pp =>
      match heap[pp]? with
      | some (.rowNode parentNode) => (positionOf p parentNode.m_childItems).map Int.ofNat
      | _ => none

/-! ## Model indices and events -/

/-- Qt `QModelIndex`: row, column, internal pointer and whether it belongs to a
model (a default-constructed index does not). -/
structure QModelIndex where
  row : Int
  column : Int
  internalPointer : Option Ptr
  model : Bool
  deriving DecidableEq, Repr

/-- The default-constructed `QModelIndex()`. -/
def QModelIndex.invalid : QModelIndex := ⟨-1, -1, none, false⟩

/-- Qt `QModelIndex::isValid`. -/
def QModelIndex.isValid (i : QModelIndex) : Bool :=
  decide (0 ≤ i.row) && decide (0 ≤ i.column) && i.model

/-- Qt `QAbstractItemModel::createIndex`. -/
def createIndex (row column : Int) (ptr : Ptr) : QModelIndex :=
  ⟨row, column, some ptr, true⟩

/-- Qt `Qt::SortOrder`. -/
inductive SortOrder where
  | AscendingOrder
  | DescendingOrder
  deriving DecidableEq, Repr

/-- Everything the model sends out: signals to the view, fetch requests to the
thumbnail downloader and sort requests to the content manager. -/
inductive Event where
  | modelAboutToBeReset
  | modelReset
  | rowsAboutToBeInserted (parent : QModelIndex) (first last : Int)
  | rowsInserted (parent : QModelIndex) (first last : Int)
  | dataChanged (topLeft bottomRight : QModelIndex)
  | addDownload (url bookId : String)
  | setSortBy (sortBy : String) (ascending : Bool)
  deriving DecidableEq, Repr

/-- Role `Qt::DisplayRole`. -/
def DisplayRole : Int := 0

/-- Role `Qt::UserRole + 1`. -/
def AdditionalInfoRole : Int := 257

/-! ## The view-model -/

/-- Members of `ContentManagerModel`, together with the heap of node objects. -/
structure ContentManagerModel where
  heap : List Node
  rootNode : Option Ptr
  m_data : BookInfoList
  zimCount : Int
  bookIdToRowMap : QMap Nat
  m_iconMap : QMap QByteArray
  m_downloads : QMap DownloadState
  deriving DecidableEq, Repr

/-- State left by the constructor: no records, no root node, cursor 0. -/
def ContentManagerModel.new (downloads : QMap DownloadState) : ContentManagerModel :=
  { heap := [], rootNode := none, m_data := [], zimCount := 0,
    bookIdToRowMap := [], m_iconMap := [], m_downloads := downloads }

/-- `ContentManagerModel::columnCount`. -/
def columnCount (m : ContentManagerModel) (parent : QModelIndex) : Option Int :=
  if parent.isValid then
    (parent.internalPointer.bind fun p => m.heap[p]?).map Node.columnCount
  else
    (m.rootNode.bind fun p => m.heap[p]?).map Node.columnCount

/-- `ContentManagerModel::rowCount`: the parent is unused. -/
def rowCount (m : ContentManagerModel) (_parent : QModelIndex) : Int :=
  m.zimCount

/-- Qt `QAbstractItemModel::hasIndex`. -/
def hasIndex (m : ContentManagerModel) (row column : Int) (parent : QModelIndex) :
    Option Bool :=
  if row < 0 ∨ column < 0 then some false
  else if row < rowCount m parent then
    (columnCount m parent).map fun cc => decide (column < cc)
  else some false

/-- `ContentManagerModel::index`. -/
def index (m : ContentManagerModel) (row column : Int) (parent : QModelIndex) :
    Option QModelIndex :=
  match hasIndex m row column parent with
  | none => none
  | some false => some QModelIndex.invalid
  | some true =>
    let parentItem := if !parent.isValid then m.rootNode else parent.internalPointer
    match parentItem.bind fun p => m.heap[p]? with
    | none => none
    | some node =>
      match node.child row with
      | some childItem => some (createIndex row column childItem)
      | none => some QModelIndex.invalid

/-- `ContentManagerModel::parent`. -/
def parent (m : ContentManagerModel) (index : QModelIndex) : Option QModelIndex :=
  if !index.isValid then some QModelIndex.invalid
  else
    match index.internalPointer.bind fun p => m.heap[p]? with
    | none => none
    | some childItem =>
      match childItem.parentItem with
      | none => some QModelIndex.invalid
      | some parentItem =>
        if some parentItem = m.rootNode then some QModelIndex.invalid
        else (Node.row m.heap parentItem).map fun r => createIndex r 0 parentItem

/-- `ContentManagerModel::getThumbnail`. -/
def getThumbnail (lib : Lib) (m : ContentManagerModel) (faviconEntry : QVariant) :
    QVariant :=
  if faviconEntry.isByteArray then faviconEntry
  else
    let faviconUrl := faviconEntry.toString lib
    match QMap.constFind m.m_iconMap faviconUrl with
    | some bytes => QVariant.byteArray bytes
    | none => faviconEntry

/-- `ContentManagerModel::data`: the value returned and the fetch requests
handed to the thumbnail downloader. -/
def data (lib : Lib) (m : ContentManagerModel) (index : QModelIndex) (role : Int) :
    Option (QVariant × List Event) :=
  let displayRole := decide (role = DisplayRole)
  let additionalInfoRole := decide (role = AdditionalInfoRole)
  if (displayRole || additionalInfoRole) && index.isValid then
    match index.internalPointer.bind fun p => m.heap[p]? with
    | none => none
    | some item =>
      let r := item.data index.column
      if index.column ≠ 0 then some (r, [])
      else
        let r := getThumbnail lib m r
        if r.isByteArray then some (r, [])
        else
          let faviconUrl := r.toString lib
          if faviconUrl ≠ "" then
            some (QVariant.invalid, [Event.addDownload faviconUrl item.getBookId])
          else some (QVariant.invalid, [])
  else some (QVariant.invalid, [])

/-- `ContentManagerModel::createNode`: allocates the row node and its
description node and returns the address of the row node. -/
def createNode (lib : Lib) (m : ContentManagerModel) (bookItem : BookInfo) :
    ContentManagerModel × Ptr :=
  let id := (bookItem.get "id").toString lib
  let bookIcon := getThumbnail lib m (bookItem.get "favicon")
  let weakRoot := m.rootNode
  let rowNodePtr := m.heap.length
  let rowNode : RowNode :=
    { m_itemData := [bookIcon, bookItem.get "title", bookItem.get "date",
        QVariant.string (lib.beautifyFileSize ((bookItem.get "size").toULongLong lib)),
        bookItem.get "tags"],
      m_bookId := id, m_parentItem := weakRoot, m_childItems := [],
      m_downloadState := none }
  let descNodePtr := rowNodePtr + 1
  let descNode : DescriptionNode :=
    { m_desc := (bookItem.get "description").toString lib, m_parentItem := some rowNodePtr }
  ({ m with heap := m.heap ++
      [Node.rowNode (rowNode.appendChild descNodePtr), Node.descriptionNode descNode] },
   rowNodePtr)

/-- The row node stored at `p`, `none` when `p` does not address a row node. -/
def getRow (heap : List Node) (p : Ptr) : Option RowNode :=
  match heap[p]? with
  | some (.rowNode n) => some n
  | _ => none

/-- One iteration of the loop of `ContentManagerModel::setupNodes`. -/
def setupNodesStep (lib : Lib) (m : ContentManagerModel) (bookItem : BookInfo) :
    Option ContentManagerModel :=
  let (m1, rowPtr) := createNode lib m bookItem
  match getRow m1.heap rowPtr with
  | none => none
  | some rowNode =>
    let heap2 :=
      match QMap.constFind m1.m_downloads rowNode.m_bookId with
      | some ds => m1.heap.set rowPtr (Node.rowNode (rowNode.setDownloadState (some ds)))
      | none => m1.heap
    match m1.rootNode with
    | none => none
    | some rootPtr =>
      match getRow heap2 rootPtr with
      | none => none
      | some root =>
        some { m1 with
          bookIdToRowMap :=
            QMap.assign m1.bookIdToRowMap ((bookItem.get "id").toString lib)
              root.m_childItems.length
          heap := heap2.set rootPtr (Node.rowNode (root.appendChild rowPtr)) }

/-- The loop of `setupNodes` over the remaining records. -/
def setupNodesLoop (lib : Lib) : ContentManagerModel → BookInfoList →
    Option ContentManagerModel
  | m, [] => some m
  | m, bookItem :: rest =>
    match setupNodesStep lib m bookItem with
    | none => none
    | some m1 => setupNodesLoop lib m1 rest

/-- `ContentManagerModel::setupNodes`. -/
def setupNodes (lib : Lib) (m : ContentManagerModel) :
    Option (ContentManagerModel × List Event) :=
  match setupNodesLoop lib { m with bookIdToRowMap := [] } m.m_data with
  | none => none
  | some m1 => some (m1, [Event.modelAboutToBeReset, Event.modelReset])

/-- `ContentManagerModel::setBooksData`.  Assigning the fresh root releases the
last owner of the previous tree, so the heap restarts with the root alone. -/
def setBooksData (lib : Lib) (m : ContentManagerModel) (data : BookInfoList) :
    Option (ContentManagerModel × List Event) :=
  let root : RowNode :=
    { m_itemData := [QVariant.string (lib.tr "Icon"), QVariant.string (lib.tr "Name"),
        QVariant.string (lib.tr "Date"), QVariant.string (lib.tr "Size"),
        QVariant.string (lib.tr "Content Type"), QVariant.string (lib.tr "Download")],
      m_bookId := "", m_parentItem := none, m_childItems := [], m_downloadState := none }
  let m1 := { m with m_data := data, heap := [Node.rowNode root], rootNode := some 0 }
  match setupNodes lib m1 with
  | none => none
  | some (m2, events) =>
    some (m2, events ++ [Event.dataChanged QModelIndex.invalid QModelIndex.invalid])

/-- `ContentManagerModel::canFetchMore`. -/
def canFetchMore (m : ContentManagerModel) (parent : QModelIndex) : Bool :=
  if parent.isValid then false
  else decide (m.zimCount < (m.m_data.length : Int))

/-- `ContentManagerModel::fetchMore`. -/
def fetchMore (m : ContentManagerModel) (parent : QModelIndex) :
    ContentManagerModel × List Event :=
  if parent.isValid then (m, [])
  else
    let remainder : Int := (m.m_data.length : Int) - m.zimCount
    let zimsToFetch : Int := min 5 remainder
    ({ m with zimCount := m.zimCount + zimsToFetch },
     [Event.rowsAboutToBeInserted QModelIndex.invalid m.zimCount
        (m.zimCount + zimsToFetch - 1),
      Event.rowsInserted QModelIndex.invalid m.zimCount (m.zimCount + zimsToFetch - 1)])

/-- `ContentManagerModel::sort`: the request forwarded to the content manager. -/
def sort (m : ContentManagerModel) (column : Int) (order : SortOrder) :
    ContentManagerModel × List Event :=
  if column = 0 ∨ column = 4 ∨ column = 5 then (m, [])
  else
    let sortBy : String :=
      if column = 1 then "title"
      else if column = 2 then "date"
      else if column = 3 then "size"
      else "unsorted"
    (m, [Event.setSortBy sortBy (decide (order = SortOrder.AscendingOrder))])

/-- `ContentManagerModel::getRowNode`: the address held by `rootNode->child(row)`,
`none` for a null pointer. -/
def getRowNode (m : ContentManagerModel) (row : Nat) : Option (Option Ptr) :=
  (m.rootNode.bind fun p => m.heap[p]?).map fun root => root.child (row : Int)

/-- `ContentManagerModel::updateImage`. -/
def updateImage (m : ContentManagerModel) (bookId url : String) (imageData : QByteArray) :
    Option (ContentManagerModel × List Event) :=
  match QMap.constFind m.bookIdToRowMap bookId with
  | none => some (m, [])
  | some row =>
    match getRowNode m row with
    | some (some item) =>
      match getRow m.heap item with
      | none => none
      | some node =>
        let m1 := { m with
          heap := m.heap.set item (Node.rowNode (node.setIconData imageData))
          m_iconMap := QMap.assign m.m_iconMap url imageData }
        (index m1 (row : Int) 0 QModelIndex.invalid).map fun idx =>
          (m1, [Event.dataChanged idx idx])
    | _ => none

/-- `ContentManagerModel::updateDownload`. -/
def updateDownload (m : ContentManagerModel) (bookId : String) :
    Option (ContentManagerModel × List Event) :=
  match QMap.constFind m.bookIdToRowMap bookId with
  | some row =>
    (index m (row : Int) 5 QModelIndex.invalid).map fun newIndex =>
      (m, [Event.dataChanged newIndex newIndex])
  | none => some (m, [])

/-- `ContentManagerModel::pauseDownload`. -/
def pauseDownload (m : ContentManagerModel) (index : QModelIndex) :
    ContentManagerModel × List Event :=
  (m, [Event.dataChanged index index])

/-- `ContentManagerModel::resumeDownload`. -/
def resumeDownload (m : ContentManagerModel) (index : QModelIndex) :
    ContentManagerModel × List Event :=
  (m, [Event.dataChanged index index])

/-- `ContentManagerModel::removeDownload`. -/
def removeDownload (m : ContentManagerModel) (bookId : String) :
    Option (ContentManagerModel × List Event) :=
  match QMap.constFind m.bookIdToRowMap bookId with
  | none => some (m, [])
  | some row =>
    match getRowNode m row with
    | some (some item) =>
      match getRow m.heap item with
      | none => none
      | some node =>
        let m1 := { m with heap := m.heap.set item (Node.rowNode (node.setDownloadState none)) }
        (index m1 (row : Int) 5 QModelIndex.invalid).map fun idx =>
          (m1, [Event.dataChanged idx idx])
    | _ => none

/-! ## Specification-side definitions -/

/-- Book id of a record, as `createNode` and `setupNodes` read it. -/
def bookIdOf (lib : Lib) (bookItem : BookInfo) : String :=
  (bookItem.get "id").toString lib

/-- Book ids of a record list, in list order. -/
def bookIds (lib : Lib) (recs : BookInfoList) : List String :=
  recs.map (bookIdOf lib)

/-- Addresses of the first `k` row nodes of a freshly built tree. -/
def rowPtrs (k : Nat) : List Ptr :=
  (List.range k).map fun i => 1 + 2 * i

/-- Column values of the root node built by `setBooksData`. -/
def headerColumns (lib : Lib) : List QVariant :=
  [QVariant.string (lib.tr "Icon"), QVariant.string (lib.tr "Name"),
   QVariant.string (lib.tr "Date"), QVariant.string (lib.tr "Size"),
   QVariant.string (lib.tr "Content Type"), QVariant.string (lib.tr "Download")]

/-- Row node that a rebuild leaves in the heap for record number `i`. -/
def builtRowNode (lib : Lib) (m : ContentManagerModel) (bookItem : BookInfo) (i : Nat) :
    RowNode :=
  { m_itemData := [getThumbnail lib m (bookItem.get "favicon"), bookItem.get "title",
      bookItem.get "date",
      QVariant.string (lib.beautifyFileSize ((bookItem.get "size").toULongLong lib)),
      bookItem.get "tags"],
    m_bookId := bookIdOf lib bookItem, m_parentItem := some 0, m_childItems := [2 + 2 * i],
    m_downloadState := QMap.constFind m.m_downloads (bookIdOf lib bookItem) }

/-- The map obtained by assigning to each id, in list order, its position
counted from `k`. -/
def buildMapFrom : QMap Nat → Nat → List String → QMap Nat
  | mp, _, [] => mp
  | mp, k, b :: rest => buildMapFrom (QMap.assign mp b k) (k + 1) rest

/-- The tree and the book-id map right after the records `recs` have been
processed by the loop of `setupNodes`. -/
structure FreshFor (lib : Lib) (m : ContentManagerModel) (recs : BookInfoList) : Prop where
  root : m.rootNode = some 0
  len : m.heap.length = 1 + 2 * recs.length
  rootNode : m.heap[0]? = some (Node.rowNode
    { m_itemData := headerColumns lib, m_bookId := "", m_parentItem := none,
      m_childItems := rowPtrs recs.length, m_downloadState := none })
  rows : ∀ (i : Nat) (b : BookInfo), recs[i]? = some b →
    m.heap[1 + 2 * i]? = some (Node.rowNode (builtRowNode lib m b i))
  descs : ∀ (i : Nat) (b : BookInfo), recs[i]? = some b →
    m.heap[2 + 2 * i]? = some (Node.descriptionNode
      { m_desc := (b.get "description").toString lib, m_parentItem := some (1 + 2 * i) })
  map : m.bookIdToRowMap = buildMapFrom [] 0 (bookIds lib recs)

/-- Shape of the heap and of the book-id map in every state that has been
through a rebuild: the root at address 0, row node `i` at `1 + 2 * i` with its
description node at `2 + 2 * i`, and a map that only points at rows holding the
mapped id.  Column values and download states of the rows are left open, since
`updateImage` and `removeDownload` change them in place. -/
structure TreeOK (lib : Lib) (m : ContentManagerModel) : Prop where
  root : m.rootNode = some 0
  len : m.heap.length = 1 + 2 * m.m_data.length
  rootNode : m.heap[0]? = some (Node.rowNode
    { m_itemData := headerColumns lib, m_bookId := "", m_parentItem := none,
      m_childItems := rowPtrs m.m_data.length, m_downloadState := none })
  rows : ∀ (i : Nat) (b : BookInfo), m.m_data[i]? = some b →
    ∃ cols ds, cols ≠ [] ∧ m.heap[1 + 2 * i]? = some (Node.rowNode
      { m_itemData := cols, m_bookId := bookIdOf lib b, m_parentItem := some 0,
        m_childItems := [2 + 2 * i], m_downloadState := ds })
  descs : ∀ (i : Nat), i < m.m_data.length →
    ∃ t, m.heap[2 + 2 * i]? = some (Node.descriptionNode
      { m_desc := t, m_parentItem := some (1 + 2 * i) })
  map : ∀ (b : String) (r : Nat), QMap.constFind m.bookIdToRowMap b = some r →
    ∃ bi, m.m_data[r]? = some bi ∧ bookIdOf lib bi = b

/-- A model that has not been through a rebuild yet. -/
def Unbuilt (m : ContentManagerModel) : Prop :=
  m.heap = [] ∧ m.rootNode = none ∧ m.m_data = [] ∧ m.bookIdToRowMap = [] ∧ m.zimCount = 0

/-- States the model can be in: the constructed model, and whatever the
state-changing operations make of a reachable state.  The download tracker may
change the download table it shares with the model at any time.  The remaining
operations (`sort`, `updateDownload`, `pauseDownload`, `resumeDownload` and the
queries) leave the state as it is. -/
inductive Reachable (lib : Lib) : ContentManagerModel → Prop where
  | new (downloads : QMap DownloadState) : Reachable lib (ContentManagerModel.new downloads)
  | setBooksData (m m1 : ContentManagerModel) (data : BookInfoList) (ev : List Event) :
      Reachable lib m → setBooksData lib m data = some (m1, ev) → Reachable lib m1
  | fetchMore (m : ContentManagerModel) (parent : QModelIndex) :
      Reachable lib m → Reachable lib (fetchMore m parent).1
  | updateImage (m m1 : ContentManagerModel) (bookId url : String) (imageData : QByteArray)
      (ev : List Event) :
      Reachable lib m → updateImage m bookId url imageData = some (m1, ev) → Reachable lib m1
  | removeDownload (m m1 : ContentManagerModel) (bookId : String) (ev : List Event) :
      Reachable lib m → removeDownload m bookId = some (m1, ev) → Reachable lib m1
  | downloadsChanged (m : ContentManagerModel) (downloads : QMap DownloadState) :
      Reachable lib m → Reachable lib { m with m_downloads := downloads }

/-- State after `n` consecutive top-level `fetchMore` calls. -/
def fetchMoreN (m : ContentManagerModel) : Nat → ContentManagerModel
  | 0 => m
  | n + 1 => (fetchMore (fetchMoreN m n) QModelIndex.invalid).1

/-- The row node that `getRowNode(row)` points at, when there is one. -/
def rowNodeAt (m : ContentManagerModel) (row : Nat) : Option RowNode :=
  match getRowNode m row with
  | some (some p) => getRow m.heap p
  | _ => none

/-- State left by `setBooksData`; the state itself where the call is undefined. -/
def rebuild (lib : Lib) (m : ContentManagerModel) (data : BookInfoList) :
    ContentManagerModel :=
  match setBooksData lib m data with
  | some (m1, _) => m1
  | none => m

/-! ## Concrete inputs -/

/-- An instance of the library parameters. -/
def exLib : Lib :=
  { fromUtf8 := fun _ => "", parseULongLong := fun _ => 0,
    beautifyFileSize := fun _ => "", tr := fun s => s }

/-- A record with the given id and favicon URL. -/
def exRecord (id favicon : String) : BookInfo :=
  [("id", QVariant.string id), ("favicon", QVariant.string favicon),
   ("title", QVariant.string "Title"), ("description", QVariant.string "Text")]

/-- Two records with distinct ids. -/
def exTwoBooks : BookInfoList :=
  [exRecord "book1" "http://x/1.png", exRecord "book2" "http://x/2.png"]

/-- Six records with distinct ids. -/
def exSixBooks : BookInfoList :=
  [exRecord "book1" "http://x/1.png", exRecord "book2" "http://x/2.png",
   exRecord "book3" "http://x/3.png", exRecord "book4" "http://x/4.png",
   exRecord "book5" "http://x/5.png", exRecord "book6" "http://x/6.png"]

/-- The constructed model, with an empty download table. -/
def exNew : ContentManagerModel := ContentManagerModel.new []

/-- Two records loaded, nothing paged in yet (cursor 0). -/
def exBuilt : ContentManagerModel := rebuild exLib exNew exTwoBooks

/-- Two records loaded and paged in (cursor 2). -/
def exPaged : ContentManagerModel := (fetchMore exBuilt QModelIndex.invalid).1

/-- Six records loaded, nothing paged in yet (cursor 0). -/
def exSixBuilt : ContentManagerModel := rebuild exLib exNew exSixBooks

/-- Six records loaded, the first five paged in (cursor 5). -/
def exSixPaged : ContentManagerModel := (fetchMore exSixBuilt QModelIndex.invalid).1

/-- The state `exSixPaged` after a rebuild with a single record. -/
def exShrunk : ContentManagerModel :=
  rebuild exLib exSixPaged [exRecord "book1" "http://x/1.png"]

/-- States reachable from the constructed model by `setBooksData` and top-level
`fetchMore` calls in which every `setBooksData` call supplies at least as many
records as the paging cursor counts at the time of the call. -/
inductive PagedReachable (lib : Lib) : ContentManagerModel → Prop where
  | new (downloads : QMap DownloadState) :
      PagedReachable lib (ContentManagerModel.new downloads)
  | setBooksData (m m1 : ContentManagerModel) (data : BookInfoList) (ev : List Event) :
      PagedReachable lib m → m.zimCount ≤ (data.length : Int) →
      setBooksData lib m data = some (m1, ev) → PagedReachable lib m1
  | fetchMore (m : ContentManagerModel) :
      PagedReachable lib m → PagedReachable lib (fetchMore m QModelIndex.invalid).1

/-- Two records loaded while the download table holds a state for `book2`;
nothing paged in yet (cursor 0). -/
def exTracked : ContentManagerModel :=
  rebuild exLib (ContentManagerModel.new [("book2", 7)]) exTwoBooks

/-- Events of two consecutive `data` calls on one index.  `data` is a const
method: the second call runs against the state the first one ran against. -/
def dataTwice (lib : Lib) (m : ContentManagerModel) (index : QModelIndex) (role : Int) :
    Option (List Event) :=
  match data lib m index role with
  | none => none
  | some (_, ev1) =>
    match data lib m index role with
    | none => none
    | some (_, ev2) => some (ev1 ++ ev2)

/-- Writes of `setBooksData` and `setupNodes` to what the view can observe. -/
inductive Mutation where
  | replaceRecords
  | replaceRoot
  | clearMap
  | assignMap (bookId : String)
  | appendRow (bookId : String)
  deriving DecidableEq, Repr

/-- One entry of the trace of `setBooksData`: a write or an emitted signal. -/
inductive TraceItem where
  | mutation (mu : Mutation)
  | signal (e : Event)
  deriving DecidableEq, Repr

/-- The signals of a trace, in order. -/
def signalsOf : List TraceItem → List Event
  | [] => []
  | TraceItem.signal e :: rest => e :: signalsOf rest
  | TraceItem.mutation _ :: rest => signalsOf rest

/-- The loop of `setupNodes` with its writes recorded: each iteration assigns
`bookIdToRowMap[id]` and then appends the row node to the root. -/
def setupNodesLoopTrace (lib : Lib) : ContentManagerModel → BookInfoList →
    Option (ContentManagerModel × List TraceItem)
  | m, [] => some (m, [])
  | m, bookItem :: rest =>
    match setupNodesStep lib m bookItem with
    | none => none
    | some m1 =>
      match setupNodesLoopTrace lib m1 rest with
      | none => none
      | some (m2, t) =>
        some (m2,
          [TraceItem.mutation (Mutation.assignMap ((bookItem.get "id").toString lib)),
           TraceItem.mutation (Mutation.appendRow ((bookItem.get "id").toString lib))] ++ t)

/-- `ContentManagerModel::setBooksData` with its writes and signals recorded in
program order: the two assignments of `setBooksData`, then `setupNodes`
(`beginResetModel`, the map cleared, the loop, `endResetModel`), then the
`dataChanged` signal. -/
def setBooksDataTrace (lib : Lib) (m : ContentManagerModel) (data : BookInfoList) :
    Option (ContentManagerModel × List TraceItem) :=
  let root : RowNode :=
    { m_itemData := [QVariant.string (lib.tr "Icon"), QVariant.string (lib.tr "Name"),
        QVariant.string (lib.tr "Date"), QVariant.string (lib.tr "Size"),
        QVariant.string (lib.tr "Content Type"), QVariant.string (lib.tr "Download")],
      m_bookId := "", m_parentItem := none, m_childItems := [], m_downloadState := none }
  let m1 := { m with m_data := data, heap := [Node.rowNode root], rootNode := some 0 }
  match setupNodesLoopTrace lib { m1 with bookIdToRowMap := [] } m1.m_data with
  | none => none
  | some (m2, t) =>
    some (m2,
      [TraceItem.mutation Mutation.replaceRecords, TraceItem.mutation Mutation.replaceRoot,
       TraceItem.signal Event.modelAboutToBeReset, TraceItem.mutation Mutation.clearMap]
      ++ t ++
      [TraceItem.signal Event.modelReset,
       TraceItem.signal (Event.dataChanged QModelIndex.invalid QModelIndex.invalid)])

/-! ## Lemmas and theorems -/

theorem QMap.constFind_nil {α : Type} (k : String) :
    QMap.constFind ([] : QMap α) k = none := rfl

theorem QMap.constFind_cons {α : Type} (k0 : String) (v0 : α) (rest : QMap α) (k : String) :
    QMap.constFind ((k0, v0) :: rest) k = if k = k0 then some v0 else QMap.constFind rest k := by
  unfold QMap.constFind
  rw [List.lookup_cons]
  by_cases h : k = k0
  · have hb : (k == k0) = true := by simp [h]
    rw [hb]; simp [h]
  · have hb : (k == k0) = false := by simp [h]
    rw [hb]; simp [h]

theorem QMap.constFind_assign {α : Type} (mp : QMap α) (k k' : String) (v : α) :
    QMap.constFind (QMap.assign mp k v) k' = if k' = k then some v else QMap.constFind mp k' := by
  induction mp with
  | nil => simp [QMap.assign, QMap.constFind_cons, QMap.constFind_nil]
  | cons e rest ih =>
    obtain ⟨k0, v0⟩ := e
    simp only [QMap.assign]
    by_cases h0 : k0 = k
    · subst h0
      by_cases h : k' = k0 <;> simp [QMap.constFind_cons, h]
    · by_cases h : k' = k
      · subst h
        have : ¬ k' = k0 := fun e => h0 e.symm
        simp [QMap.constFind_cons, h0, this, ih]
      · by_cases h1 : k' = k0 <;> simp [QMap.constFind_cons, h0, h, h1, ih]

theorem QMap.size_assign {α : Type} (mp : QMap α) (k : String) (v : α) :
    QMap.size (QMap.assign mp k v)
      = if (QMap.constFind mp k).isSome then QMap.size mp else QMap.size mp + 1 := by
  induction mp with
  | nil => simp [QMap.assign, QMap.constFind_nil, QMap.size]
  | cons e rest ih =>
    obtain ⟨k0, v0⟩ := e
    simp only [QMap.size] at ih
    simp only [QMap.assign, QMap.size]
    by_cases h0 : k0 = k
    · subst h0
      simp [QMap.constFind_cons]
    · have : ¬ k = k0 := fun e => h0 e.symm
      simp only [h0, if_false, List.length_cons, ih, QMap.constFind_cons, this]
      split <;> rfl

theorem buildMapFrom_snoc (mp : QMap Nat) (k : Nat) (l : List String) (b : String) :
    buildMapFrom mp k (l ++ [b]) = QMap.assign (buildMapFrom mp k l) b (k + l.length) := by
  induction l generalizing mp k with
  | nil => simp [buildMapFrom]
  | cons a rest ih =>
    have e : (a :: rest) ++ [b] = a :: (rest ++ [b]) := rfl
    rw [e]
    simp only [buildMapFrom, List.length_cons]
    rw [ih]
    have : k + 1 + rest.length = k + (rest.length + 1) := by omega
    rw [this]

theorem rowPtrs_length (k : Nat) : (rowPtrs k).length = k := by
  simp [rowPtrs]

theorem rowPtrs_succ (k : Nat) : rowPtrs (k + 1) = rowPtrs k ++ [1 + 2 * k] := by
  simp [rowPtrs, List.range_succ]

theorem rowPtrs_getElem? (k i : Nat) (h : i < k) : (rowPtrs k)[i]? = some (1 + 2 * i) := by
  simp [rowPtrs, List.getElem?_range h]

theorem getThumbnail_congr (lib : Lib) (m m' : ContentManagerModel)
    (h : m'.m_iconMap = m.m_iconMap) (e : QVariant) :
    getThumbnail lib m' e = getThumbnail lib m e := by
  simp [getThumbnail, h]

theorem builtRowNode_congr (lib : Lib) (m m' : ContentManagerModel)
    (h1 : m'.m_iconMap = m.m_iconMap) (h2 : m'.m_downloads = m.m_downloads)
    (b : BookInfo) (i : Nat) :
    builtRowNode lib m' b i = builtRowNode lib m b i := by
  simp [builtRowNode, getThumbnail_congr lib m m' h1, h2]

/-- Heap after the download state of the row node just created has been restored. -/
theorem restore_heap (H : List Node) (r0 : RowNode) (d : Node) (ds : Option DownloadState)
    (h0 : r0.m_downloadState = none) :
    (match ds with
      | some s => (H ++ [Node.rowNode r0, d]).set H.length
          (Node.rowNode (r0.setDownloadState (some s)))
      | none => H ++ [Node.rowNode r0, d])
      = H ++ [Node.rowNode { r0 with m_downloadState := ds }, d] := by
  cases ds with
  | none =>
    have : ({ r0 with m_downloadState := none } : RowNode) = r0 := by
      cases r0; simp_all
    simp [this]
  | some s =>
    simp [List.set_append, RowNode.setDownloadState]

theorem setupNodesStep_fresh (lib : Lib) (m : ContentManagerModel) (pre : BookInfoList)
    (b : BookInfo) (h : FreshFor lib m pre) :
    ∃ m1, setupNodesStep lib m b = some m1 ∧ FreshFor lib m1 (pre ++ [b]) ∧
      m1.m_data = m.m_data ∧ m1.zimCount = m.zimCount ∧ m1.m_iconMap = m.m_iconMap ∧
      m1.m_downloads = m.m_downloads := by
  obtain ⟨hroot, hlen, hrootNode, hrows, hdescs, hmap⟩ := h
  have hpos : 0 < m.heap.length := by omega
  have e1 : getRow (m.heap ++ [Node.rowNode (builtRowNode lib m b pre.length),
      Node.descriptionNode ⟨(b.get "description").toString lib, some (1 + 2 * pre.length)⟩]) 0
      = some ⟨headerColumns lib, "", none, rowPtrs pre.length, none⟩ := by
    simp [getRow, List.getElem?_append_left hpos, hrootNode]
  refine ⟨{ m with
      bookIdToRowMap := QMap.assign m.bookIdToRowMap (bookIdOf lib b) pre.length
      heap := (m.heap ++ [Node.rowNode (builtRowNode lib m b pre.length),
        Node.descriptionNode ⟨(b.get "description").toString lib, some (1 + 2 * pre.length)⟩]).set 0
        (Node.rowNode ⟨headerColumns lib, "", none, rowPtrs (pre.length + 1), none⟩) },
    ?_, ?_, rfl, rfl, rfl, rfl⟩
  · simp only [setupNodesStep, createNode, RowNode.appendChild, List.nil_append]
    have e0 : getRow (m.heap ++ [Node.rowNode
        { m_itemData := [getThumbnail lib m (b.get "favicon"), b.get "title", b.get "date",
            QVariant.string (lib.beautifyFileSize ((b.get "size").toULongLong lib)),
            b.get "tags"],
          m_bookId := (b.get "id").toString lib, m_parentItem := m.rootNode,
          m_childItems := [m.heap.length + 1], m_downloadState := none },
        Node.descriptionNode ⟨(b.get "description").toString lib, some m.heap.length⟩])
        m.heap.length = some
        { m_itemData := [getThumbnail lib m (b.get "favicon"), b.get "title", b.get "date",
            QVariant.string (lib.beautifyFileSize ((b.get "size").toULongLong lib)),
            b.get "tags"],
          m_bookId := (b.get "id").toString lib, m_parentItem := m.rootNode,
          m_childItems := [m.heap.length + 1], m_downloadState := none } := by
      simp [getRow, List.getElem?_append_right (Nat.le_refl _)]
    rw [e0]
    simp only []
    rw [restore_heap _ _ _ _ rfl]
    simp only [hroot]
    have e2 : m.heap.length = 1 + 2 * pre.length := hlen
    have e3 : m.heap.length + 1 = 2 + 2 * pre.length := by omega
    simp only [e2] at e1 ⊢
    simp only [builtRowNode, bookIdOf] at e1
    have e4 : 1 + 2 * pre.length + 1 = 2 + 2 * pre.length := by omega
    simp only [e4]
    rw [e1]
    simp [rowPtrs_length, rowPtrs_succ, bookIdOf, builtRowNode]
  · have hb : ∀ i b', (pre ++ [b])[i]? = some b' →
        (i < pre.length ∧ pre[i]? = some b') ∨ (i = pre.length ∧ b' = b) := by
      intro i b' hi
      rw [List.getElem?_append] at hi
      split at hi
      · exact Or.inl ⟨by assumption, hi⟩
      · rename_i hge
        have hi2 : i - pre.length < [b].length := by
          by_contra hcon
          rw [List.getElem?_eq_none (by omega)] at hi
          cases hi
        simp only [List.length_singleton] at hi2
        have hz : i - pre.length = 0 := by omega
        rw [hz] at hi
        simp only [List.getElem?_cons_zero, Option.some.injEq] at hi
        exact Or.inr ⟨by omega, hi.symm⟩
    refine ⟨hroot, ?_, ?_, ?_, ?_, ?_⟩
    · simp [hlen]; omega
    · simp only [List.getElem?_set, List.length_append, List.length_cons, List.length_nil]
      simp
    · intro i b' hi
      have hne : ¬ (0 = 1 + 2 * i) := by omega
      simp only [List.getElem?_set, hne, if_false]
      change _ = some (Node.rowNode (builtRowNode lib m b' i))
      rcases hb i b' hi with ⟨hlt, hpre⟩ | ⟨rfl, rfl⟩
      · rw [List.getElem?_append_left (by omega)]
        exact hrows i b' hpre
      · rw [List.getElem?_append_right (by omega)]
        have : 1 + 2 * pre.length - m.heap.length = 0 := by omega
        simp [this]
    · intro i b' hi
      have hne : ¬ (0 = 2 + 2 * i) := by omega
      simp only [List.getElem?_set, hne, if_false]
      rcases hb i b' hi with ⟨hlt, hpre⟩ | ⟨rfl, rfl⟩
      · rw [List.getElem?_append_left (by omega)]
        exact hdescs i b' hpre
      · rw [List.getElem?_append_right (by omega)]
        have : 2 + 2 * pre.length - m.heap.length = 1 := by omega
        simp [this]
    · simp only [bookIds, List.map_append, List.map_cons, List.map_nil]
      rw [buildMapFrom_snoc, hmap]
      simp [bookIds]

theorem setupNodesLoop_fresh (lib : Lib) (rest : BookInfoList) :
    ∀ (pre : BookInfoList) (m : ContentManagerModel), FreshFor lib m pre →
    ∃ m1, setupNodesLoop lib m rest = some m1 ∧ FreshFor lib m1 (pre ++ rest) ∧
      m1.m_data = m.m_data ∧ m1.zimCount = m.zimCount ∧ m1.m_iconMap = m.m_iconMap ∧
      m1.m_downloads = m.m_downloads := by
  induction rest with
  | nil =>
    intro pre m h
    exact ⟨m, rfl, by simpa using h, rfl, rfl, rfl, rfl⟩
  | cons b rest ih =>
    intro pre m h
    obtain ⟨m1, hs, hf, e1, e2, e3, e4⟩ := setupNodesStep_fresh lib m pre b h
    obtain ⟨m2, hl, hf2, f1, f2, f3, f4⟩ := ih (pre ++ [b]) m1 hf
    refine ⟨m2, ?_, ?_, f1.trans e1, f2.trans e2, f3.trans e3, f4.trans e4⟩
    · simp only [setupNodesLoop, hs, hl]
    · simpa using hf2

theorem setBooksData_fresh (lib : Lib) (m : ContentManagerModel) (data : BookInfoList) :
    ∃ m1, setBooksData lib m data = some (m1, [Event.modelAboutToBeReset, Event.modelReset,
        Event.dataChanged QModelIndex.invalid QModelIndex.invalid]) ∧
      FreshFor lib m1 data ∧ m1.m_data = data ∧ m1.zimCount = m.zimCount ∧
      m1.m_iconMap = m.m_iconMap ∧ m1.m_downloads = m.m_downloads := by
  have h0 : FreshFor lib
      { m with
        m_data := data
        heap := [Node.rowNode
          { m_itemData := headerColumns lib, m_bookId := "", m_parentItem := none,
            m_childItems := [], m_downloadState := none }]
        rootNode := some 0
        bookIdToRowMap := [] } [] := by
    refine ⟨rfl, rfl, rfl, ?_, ?_, rfl⟩
    · intro i b hi; simp at hi
    · intro i b hi; simp at hi
  obtain ⟨m1, hl, hf, e1, e2, e3, e4⟩ := setupNodesLoop_fresh lib data [] _ h0
  refine ⟨m1, ?_, by simpa using hf, e1, e2, e3, e4⟩
  simp only [setBooksData, setupNodes, headerColumns] at hl ⊢
  rw [hl]
  rfl

theorem buildMap_find_sound (ids : List String) :
    ∀ (b : String) (r : Nat), QMap.constFind (buildMapFrom [] 0 ids) b = some r →
      ids[r]? = some b := by
  induction ids using List.reverseRecOn with
  | nil => intro b r h; simp [buildMapFrom, QMap.constFind_nil] at h
  | append_singleton l a ih =>
    intro b r h
    rw [buildMapFrom_snoc, QMap.constFind_assign] at h
    split at h
    · rename_i hba
      subst hba
      simp only [Nat.zero_add, Option.some.injEq] at h
      subst h
      simp
    · have := ih b r h
      have hlt : r < l.length := by
        by_contra hcon
        rw [List.getElem?_eq_none (by omega)] at this
        cases this
      rw [List.getElem?_append_left hlt]
      exact this

theorem FreshFor.treeOK (lib : Lib) (m : ContentManagerModel)
    (h : FreshFor lib m m.m_data) : TreeOK lib m := by
  obtain ⟨hroot, hlen, hrootNode, hrows, hdescs, hmap⟩ := h
  refine ⟨hroot, hlen, hrootNode, ?_, ?_, ?_⟩
  · intro i b hi
    exact ⟨_, _, by simp, hrows i b hi⟩
  · intro i hi
    have : m.m_data[i]? = some m.m_data[i] := List.getElem?_eq_getElem hi
    exact ⟨_, hdescs i _ this⟩
  · intro b r hr
    rw [hmap] at hr
    have := buildMap_find_sound _ b r hr
    simp only [bookIds, List.getElem?_map, Option.map_eq_some'] at this
    exact this

theorem invalid_isValid : QModelIndex.invalid.isValid = false := rfl

theorem columnCount_top (lib : Lib) (m : ContentManagerModel) (h : TreeOK lib m) :
    columnCount m QModelIndex.invalid = some 6 := by
  simp [columnCount, invalid_isValid, h.root, h.rootNode, Node.columnCount]

theorem root_child (cols : List QVariant) (n r : Nat) (hr : r < n) :
    (Node.rowNode
      { m_itemData := cols, m_bookId := "", m_parentItem := none,
        m_childItems := rowPtrs n, m_downloadState := none }).child (r : Int)
      = some (1 + 2 * r) := by
  simp [Node.child, rowPtrs_length, hr, rowPtrs_getElem? _ _ hr]

/-- Value of `index` under the top-level parent. -/
theorem index_top (lib : Lib) (m : ContentManagerModel) (h : TreeOK lib m) (r : Nat)
    (c : Int) :
    index m (r : Int) c QModelIndex.invalid
      = some (if (r : Int) < m.zimCount ∧ r < m.m_data.length ∧ 0 ≤ c ∧ c < 6
          then createIndex (r : Int) c (1 + 2 * r) else QModelIndex.invalid) := by
  unfold index hasIndex
  by_cases hc : c < 0
  · have : ¬ (0 ≤ c) := by omega
    simp [hc, this]
  · have hc0 : 0 ≤ c := by omega
    have hr0 : ¬ ((r : Int) < 0) := by omega
    simp only [hr0, hc, or_self, if_false, rowCount]
    by_cases hz : (r : Int) < m.zimCount
    · simp only [hz, if_true, columnCount_top lib m h, Option.map_some']
      by_cases hc6 : c < 6
      · simp only [hc6, decide_True, invalid_isValid, Bool.not_false, if_true, h.root,
          Option.some_bind, h.rootNode]
        by_cases hn : r < m.m_data.length
        · rw [root_child _ _ r hn]
          simp [hn, hc0]
        · have : (Node.rowNode
              { m_itemData := headerColumns lib, m_bookId := "", m_parentItem := none,
                m_childItems := rowPtrs m.m_data.length, m_downloadState := none }).child
                (r : Int) = none := by
            simp [Node.child, rowPtrs_length, hn]
          rw [this]
          simp [hn]
      · simp [hc6]
    · simp [hz]

theorem getRowNode_eq (lib : Lib) (m : ContentManagerModel) (h : TreeOK lib m) (r : Nat)
    (hr : r < m.m_data.length) : getRowNode m r = some (some (1 + 2 * r)) := by
  simp only [getRowNode, h.root, Option.some_bind, h.rootNode, Option.map_some']
  rw [root_child _ _ r hr]

/-- Replacing the columns and the download state of row `r` keeps the tree
well-formed. -/
theorem TreeOK.set_row (lib : Lib) (m : ContentManagerModel) (h : TreeOK lib m) (r : Nat)
    (bi : BookInfo) (hr : m.m_data[r]? = some bi) (cols : List QVariant) (hcols : cols ≠ [])
    (ds : Option DownloadState) (im : QMap QByteArray) :
    TreeOK lib { m with
      heap := m.heap.set (1 + 2 * r) (Node.rowNode
        { m_itemData := cols, m_bookId := bookIdOf lib bi, m_parentItem := some 0,
          m_childItems := [2 + 2 * r], m_downloadState := ds })
      m_iconMap := im } := by
  obtain ⟨hroot, hlen, hrootNode, hrows, hdescs, hmap⟩ := h
  have hrlt : r < m.m_data.length := by
    by_contra hcon
    rw [List.getElem?_eq_none (by omega)] at hr
    cases hr
  refine ⟨hroot, by simpa using hlen, ?_, ?_, ?_, hmap⟩
  · have hne : ¬ (1 + 2 * r = 0) := by omega
    simp only [List.getElem?_set, hne, if_false]
    exact hrootNode
  · intro i b hi
    simp only [List.getElem?_set]
    by_cases hir : r = i
    · subst hir
      have hb : bi = b := by rw [hr] at hi; exact Option.some.inj hi
      subst hb
      have hl : 1 + 2 * r < m.heap.length := by omega
      exact ⟨cols, ds, hcols, by simp [hl]⟩
    · have hne : ¬ (1 + 2 * r = 1 + 2 * i) := by omega
      simp only [hne, if_false]
      exact hrows i b hi
  · intro i hi
    have hne : ¬ (1 + 2 * r = 2 + 2 * i) := by omega
    simp only [List.getElem?_set, hne, if_false]
    exact hdescs i hi

theorem getElem?_lt_of_eq_some {α : Type} (l : List α) (i : Nat) (a : α)
    (h : l[i]? = some a) : i < l.length := by
  by_contra hcon
  rw [List.getElem?_eq_none (by omega)] at h
  cases h

theorem updateImage_eq (lib : Lib) (m : ContentManagerModel) (h : TreeOK lib m)
    (b u : String) (d : QByteArray) (r : Nat)
    (hr : QMap.constFind m.bookIdToRowMap b = some r) :
    ∃ cols ds bi, cols ≠ [] ∧ m.m_data[r]? = some bi ∧ bookIdOf lib bi = b ∧
      m.heap[1 + 2 * r]? = some (Node.rowNode
        { m_itemData := cols, m_bookId := b, m_parentItem := some 0,
          m_childItems := [2 + 2 * r], m_downloadState := ds }) ∧
      updateImage m b u d = some
        ({ m with
            heap := m.heap.set (1 + 2 * r) (Node.rowNode
              { m_itemData := cols.set 0 (QVariant.byteArray d), m_bookId := b,
                m_parentItem := some 0, m_childItems := [2 + 2 * r], m_downloadState := ds })
            m_iconMap := QMap.assign m.m_iconMap u d },
         [Event.dataChanged
            (if (r : Int) < m.zimCount then createIndex (r : Int) 0 (1 + 2 * r)
              else QModelIndex.invalid)
            (if (r : Int) < m.zimCount then createIndex (r : Int) 0 (1 + 2 * r)
              else QModelIndex.invalid)]) := by
  obtain ⟨bi, hbi, hid⟩ := h.map b r hr
  have hrlt : r < m.m_data.length := getElem?_lt_of_eq_some _ _ _ hbi
  obtain ⟨cols, ds, hcols, hrow⟩ := h.rows r bi hbi
  rw [hid] at hrow
  refine ⟨cols, ds, bi, hcols, hbi, hid, hrow, ?_⟩
  have hcols2 : cols.set 0 (QVariant.byteArray d) ≠ [] := by
    intro hcon
    have := congrArg List.length hcon
    simp at this
    exact hcols this
  have ht := TreeOK.set_row lib m h r bi hbi (cols.set 0 (QVariant.byteArray d)) hcols2 ds
    (QMap.assign m.m_iconMap u d)
  rw [hid] at ht
  have hidx := index_top lib _ ht r 0
  simp only [updateImage, hr, getRowNode_eq lib m h r hrlt, getRow, hrow, RowNode.setIconData]
  rw [hidx]
  simp [hrlt]

theorem removeDownload_eq (lib : Lib) (m : ContentManagerModel) (h : TreeOK lib m)
    (b : String) (r : Nat) (hr : QMap.constFind m.bookIdToRowMap b = some r) :
    ∃ cols ds bi, cols ≠ [] ∧ m.m_data[r]? = some bi ∧ bookIdOf lib bi = b ∧
      m.heap[1 + 2 * r]? = some (Node.rowNode
        { m_itemData := cols, m_bookId := b, m_parentItem := some 0,
          m_childItems := [2 + 2 * r], m_downloadState := ds }) ∧
      removeDownload m b = some
        ({ m with
            heap := m.heap.set (1 + 2 * r) (Node.rowNode
              { m_itemData := cols, m_bookId := b,
                m_parentItem := some 0, m_childItems := [2 + 2 * r],
                m_downloadState := none }) },
         [Event.dataChanged
            (if (r : Int) < m.zimCount then createIndex (r : Int) 5 (1 + 2 * r)
              else QModelIndex.invalid)
            (if (r : Int) < m.zimCount then createIndex (r : Int) 5 (1 + 2 * r)
              else QModelIndex.invalid)]) := by
  obtain ⟨bi, hbi, hid⟩ := h.map b r hr
  have hrlt : r < m.m_data.length := getElem?_lt_of_eq_some _ _ _ hbi
  obtain ⟨cols, ds, hcols, hrow⟩ := h.rows r bi hbi
  rw [hid] at hrow
  refine ⟨cols, ds, bi, hcols, hbi, hid, hrow, ?_⟩
  have ht := TreeOK.set_row lib m h r bi hbi cols hcols none m.m_iconMap
  rw [hid] at ht
  have hidx := index_top lib _ ht r 5
  simp only [removeDownload, hr, getRowNode_eq lib m h r hrlt, getRow, hrow,
    RowNode.setDownloadState]
  rw [hidx]
  simp [hrlt]

/-- Every reachable state is either not built yet or has a well-formed tree. -/
theorem reachable_wf (lib : Lib) (m : ContentManagerModel) (h : Reachable lib m) :
    Unbuilt m ∨ TreeOK lib m := by
  induction h with
  | new downloads => exact Or.inl ⟨rfl, rfl, rfl, rfl, rfl⟩
  | setBooksData m m1 data ev _ hs _ =>
    obtain ⟨m2, hs2, hf, hd, _, _, _⟩ := setBooksData_fresh lib m data
    rw [hs2] at hs
    have : m2 = m1 := by
      have := Option.some.inj hs
      exact congrArg Prod.fst this
    subst this
    right
    apply FreshFor.treeOK
    rw [hd]
    exact hf
  | fetchMore m parent _ ih =>
    have hcases : (fetchMore m parent).1 = m ∨
        ∃ z, (fetchMore m parent).1 = { m with zimCount := z } := by
      unfold fetchMore
      split
      · exact Or.inl rfl
      · exact Or.inr ⟨_, rfl⟩
    rcases ih with hu | ht
    · left
      obtain ⟨h1, h2, h3, h4, h5⟩ := hu
      have hz : (fetchMore m parent).1.zimCount = 0 := by
        unfold fetchMore
        split
        · exact h5
        · simp [h3, h5]
      rcases hcases with he | ⟨z, he⟩
      · rw [he]; exact ⟨h1, h2, h3, h4, h5⟩
      · rw [he] at hz ⊢
        exact ⟨h1, h2, h3, h4, hz⟩
    · rcases hcases with he | ⟨z, he⟩
      · rw [he]; exact Or.inr ht
      · rw [he]
        exact Or.inr ⟨ht.root, ht.len, ht.rootNode, ht.rows, ht.descs, ht.map⟩
  | updateImage m m1 b u d ev _ hs ih =>
    cases hf : QMap.constFind m.bookIdToRowMap b with
    | none =>
      simp only [updateImage, hf, Option.some.injEq, Prod.mk.injEq] at hs
      rw [← hs.1]; exact ih
    | some r =>
      rcases ih with hu | ht
      · rw [hu.2.2.2.1] at hf
        simp [QMap.constFind_nil] at hf
      · obtain ⟨cols, ds, bi, hcols, hbi, hid, hrow, he⟩ := updateImage_eq lib m ht b u d r hf
        rw [he] at hs
        have hm1 : _ = m1 := congrArg Prod.fst (Option.some.inj hs)
        rw [← hm1]
        right
        have hcols2 : cols.set 0 (QVariant.byteArray d) ≠ [] := by
          intro hcon
          have := congrArg List.length hcon
          simp at this
          exact hcols this
        have := TreeOK.set_row lib m ht r bi hbi (cols.set 0 (QVariant.byteArray d)) hcols2 ds
          (QMap.assign m.m_iconMap u d)
        rw [hid] at this
        exact this
  | removeDownload m m1 b ev _ hs ih =>
    cases hf : QMap.constFind m.bookIdToRowMap b with
    | none =>
      simp only [removeDownload, hf, Option.some.injEq, Prod.mk.injEq] at hs
      rw [← hs.1]; exact ih
    | some r =>
      rcases ih with hu | ht
      · rw [hu.2.2.2.1] at hf
        simp [QMap.constFind_nil] at hf
      · obtain ⟨cols, ds, bi, hcols, hbi, hid, hrow, he⟩ := removeDownload_eq lib m ht b r hf
        rw [he] at hs
        have hm1 : _ = m1 := congrArg Prod.fst (Option.some.inj hs)
        rw [← hm1]
        right
        have := TreeOK.set_row lib m ht r bi hbi cols hcols none m.m_iconMap
        rw [hid] at this
        exact this
  | downloadsChanged m downloads _ ih =>
    rcases ih with hu | ht
    · exact Or.inl hu
    · exact Or.inr ⟨ht.root, ht.len, ht.rootNode, ht.rows, ht.descs, ht.map⟩

theorem positionOf_append_singleton (p q : Ptr) (l : List Ptr) :
    positionOf p (l ++ [q]) =
      match positionOf p l with
      | some i => some i
      | none => if q = p then some l.length else none := by
  induction l with
  | nil => simp [positionOf]
  | cons a rest ih =>
    have e : (a :: rest) ++ [q] = a :: (rest ++ [q]) := rfl
    rw [e]
    simp only [positionOf]
    rw [ih]
    by_cases ha : a = p
    · simp [ha]
    · simp only [ha, if_false]
      cases positionOf p rest with
      | some i => simp
      | none => by_cases hq : q = p <;> simp [hq]

theorem positionOf_rowPtrs (n : Nat) :
    ∀ r : Nat, positionOf (1 + 2 * r) (rowPtrs n) = if r < n then some r else none := by
  induction n with
  | zero => intro r; simp [rowPtrs, positionOf]
  | succ k ih =>
    intro r
    rw [rowPtrs_succ, positionOf_append_singleton, ih r, rowPtrs_length]
    by_cases h1 : r < k
    · have : r < k + 1 := by omega
      simp [h1, this]
    · by_cases h2 : r = k
      · subst h2; simp
      · have h3 : ¬ (r < k + 1) := by omega
        have h4 : ¬ (1 + 2 * k = 1 + 2 * r) := by omega
        simp [h1, h3, h4]

theorem createIndex_isValid (r c : Int) (p : Ptr) (hr : 0 ≤ r) (hc : 0 ≤ c) :
    (createIndex r c p).isValid = true := by
  simp [createIndex, QModelIndex.isValid, hr, hc]

/-- Parent of a row-level index. -/
theorem parent_row (lib : Lib) (m : ContentManagerModel) (h : TreeOK lib m) (r : Nat)
    (c : Int) (hn : r < m.m_data.length) :
    parent m (createIndex (r : Int) c (1 + 2 * r)) = some QModelIndex.invalid := by
  obtain ⟨cols, ds, _, hrow⟩ := h.rows r _ (List.getElem?_eq_getElem hn)
  unfold parent
  split
  · rfl
  · simp [createIndex, hrow, Node.parentItem, h.root]

/-- The description index under a row-level index. -/
theorem index_description (lib : Lib) (m : ContentManagerModel) (h : TreeOK lib m) (r : Nat)
    (c : Int) (hc : 0 ≤ c) (hn : r < m.m_data.length) (hz : (r : Int) < m.zimCount) :
    index m 0 0 (createIndex (r : Int) c (1 + 2 * r)) = some (createIndex 0 0 (2 + 2 * r)) := by
  obtain ⟨cols, ds, _, hrow⟩ := h.rows r _ (List.getElem?_eq_getElem hn)
  have hv : (createIndex (r : Int) c (1 + 2 * r)).isValid = true :=
    createIndex_isValid _ _ _ (by omega) hc
  have hz0 : (0 : Int) < m.zimCount := by omega
  have hcc : columnCount m (createIndex (r : Int) c (1 + 2 * r)) = some 6 := by
    simp only [columnCount, hv, if_true]
    simp [createIndex, hrow, Node.columnCount]
  simp only [index, hasIndex, rowCount, hcc, hz0, hv]
  simp [createIndex, hrow, Node.child]

/-- Parent of a description index. -/
theorem parent_description (lib : Lib) (m : ContentManagerModel) (h : TreeOK lib m) (r : Nat)
    (hn : r < m.m_data.length) :
    parent m (createIndex 0 0 (2 + 2 * r)) = some (createIndex (r : Int) 0 (1 + 2 * r)) := by
  obtain ⟨cols, ds, _, hrow⟩ := h.rows r _ (List.getElem?_eq_getElem hn)
  obtain ⟨t, hdesc⟩ := h.descs r hn
  have hv : (createIndex 0 0 (2 + 2 * r)).isValid = true :=
    createIndex_isValid _ _ _ (by omega) (by omega)
  have hrowOf : Node.row m.heap (1 + 2 * r) = some (r : Int) := by
    simp [Node.row, hrow, Node.parentItem, h.rootNode, positionOf_rowPtrs, hn]
  simp only [parent, hv]
  simp [createIndex, hdesc, Node.parentItem, h.root, hrowOf]

theorem reachable_rebuild (lib : Lib) (m : ContentManagerModel) (data : BookInfoList)
    (h : Reachable lib m) : Reachable lib (rebuild lib m data) := by
  obtain ⟨m1, hs, _⟩ := setBooksData_fresh lib m data
  have : rebuild lib m data = m1 := by simp [rebuild, hs]
  rw [this]
  exact Reachable.setBooksData m m1 data _ h hs

theorem reachable_exPaged : Reachable exLib exPaged :=
  Reachable.fetchMore _ _ (reachable_rebuild _ _ _ (Reachable.new []))

theorem reachable_exBuilt : Reachable exLib exBuilt :=
  reachable_rebuild _ _ _ (Reachable.new [])

theorem reachable_exShrunk : Reachable exLib exShrunk :=
  reachable_rebuild _ _ _ (Reachable.fetchMore _ _ (reachable_rebuild _ _ _ (Reachable.new [])))

theorem fetchMore_m_data (m : ContentManagerModel) (parent : QModelIndex) :
    (fetchMore m parent).1.m_data = m.m_data := by
  unfold fetchMore
  split <;> rfl

theorem fetchMoreN_m_data (m : ContentManagerModel) (N : Nat) :
    (fetchMoreN m N).m_data = m.m_data := by
  induction N with
  | zero => rfl
  | succ k ih => simp [fetchMoreN, fetchMore_m_data, ih]

theorem fetchMore_top_zimCount (m : ContentManagerModel) :
    (fetchMore m QModelIndex.invalid).1.zimCount
      = m.zimCount + min 5 ((m.m_data.length : Int) - m.zimCount) := by
  simp [fetchMore, QModelIndex.invalid, QModelIndex.isValid]

/-- C1: starting from a paging cursor of 0, after `N` consecutive top-level
`fetchMore` calls the top-level `rowCount` is `min (5 * N) n`, where `n` is the
number of records the model holds. -/
theorem C1_rowCount_after_fetchMore (m : ContentManagerModel) (N : Nat)
    (h : m.zimCount = 0) :
    rowCount (fetchMoreN m N) QModelIndex.invalid
      = min (5 * (N : Int)) (m.m_data.length : Int) := by
  induction N with
  | zero => simp [fetchMoreN, rowCount, h]
  | succ k ih =>
    simp only [rowCount] at ih ⊢
    simp only [fetchMoreN, fetchMore_top_zimCount, fetchMoreN_m_data, ih]
    push_cast
    omega

/-- C1 at six records and two calls: the cursor stops at 6, not at 10. -/
theorem C1_rowCount_after_fetchMore_witness :
    exSixBuilt.zimCount = 0 ∧
    rowCount (fetchMoreN exSixBuilt 2) QModelIndex.invalid
      = min (5 * ((2 : Nat) : Int)) (exSixBuilt.m_data.length : Int) :=
  ⟨by decide, C1_rowCount_after_fetchMore exSixBuilt 2 (by decide)⟩


/-- C3 (as stated) fails: in the reachable state `exShrunk` the cursor is 5 and one
record is held; row 3 is below the cursor, yet the index built under
`index(3, 0)` has the invalid index as its parent. -/
theorem C3_counterexample_row_beyond_records :
    Reachable exLib exShrunk ∧ (3 : Int) < rowCount exShrunk QModelIndex.invalid ∧
    ((index exShrunk 3 0 QModelIndex.invalid).bind fun rowIdx =>
      (index exShrunk 0 0 rowIdx).bind fun d => parent exShrunk d)
      = some QModelIndex.invalid :=
  ⟨reachable_exShrunk, by decide, by decide⟩

/-- C3 (amended): in every reachable state, for every row `r` below the paging
cursor and every column `c` in 0..5, the parent of `index(r, c)` is the invalid
index; and when `r` is also below the number of records, `index(r, c)` is valid,
the description index `d = index(0, 0, index(r, c))` is valid and addresses a
description node, and `parent(d)` is the valid index `index(r, 0)`, at row `r`
and addressing the row node of row `r`. -/
theorem C3_index_then_parent (lib : Lib) (m : ContentManagerModel) (hm : Reachable lib m)
    (r : Nat) (c : Int) (hz : (r : Int) < m.zimCount) (hc : 0 ≤ c ∧ c < 6) :
    (∃ rowIdx, index m (r : Int) c QModelIndex.invalid = some rowIdx ∧
      parent m rowIdx = some QModelIndex.invalid) ∧
    (r < m.m_data.length →
      ∃ rowIdx d p dp dn,
        index m (r : Int) c QModelIndex.invalid = some rowIdx ∧ rowIdx.isValid = true ∧
        rowIdx.row = (r : Int) ∧ rowIdx.column = c ∧ rowIdx.internalPointer = some p ∧
        getRowNode m r = some (some p) ∧
        index m 0 0 rowIdx = some d ∧ d.isValid = true ∧
        d.internalPointer = some dp ∧ m.heap[dp]? = some (Node.descriptionNode dn) ∧
        parent m d = some (createIndex (r : Int) 0 p) ∧
        (createIndex (r : Int) 0 p).isValid = true ∧
        index m (r : Int) 0 QModelIndex.invalid = some (createIndex (r : Int) 0 p)) := by
  rcases reachable_wf lib m hm with hu | ht
  · exfalso
    have := hu.2.2.2.2
    omega
  · constructor
    · refine ⟨_, index_top lib m ht r c, ?_⟩
      by_cases hn : r < m.m_data.length
      · simp only [hz, hn, hc.1, hc.2, and_self, if_true]
        exact parent_row lib m ht r c hn
      · simp only [hn, false_and, and_false, if_false]
        rfl
    · intro hn
      obtain ⟨t, hdesc⟩ := ht.descs r hn
      refine ⟨createIndex (r : Int) c (1 + 2 * r), createIndex 0 0 (2 + 2 * r), 1 + 2 * r,
        2 + 2 * r, _, ?_, createIndex_isValid _ _ _ (by omega) hc.1, rfl, rfl, rfl,
        getRowNode_eq lib m ht r hn, index_description lib m ht r c hc.1 hn hz,
        createIndex_isValid _ _ _ (by omega) (by omega), rfl, hdesc,
        parent_description lib m ht r hn, createIndex_isValid _ _ _ (by omega) (by omega), ?_⟩
      · rw [index_top lib m ht r c]
        simp [hz, hn, hc.1, hc.2]
      · rw [index_top lib m ht r 0]
        simp [hz, hn]

/-- C3 (amended) at `exPaged`, row 1 and column 3. -/
theorem C3_index_then_parent_witness :
    Reachable exLib exPaged ∧ (((1 : Nat) : Int) < exPaged.zimCount) ∧
    ((0 : Int) ≤ 3 ∧ (3 : Int) < 6) ∧
    ((∃ rowIdx, index exPaged ((1 : Nat) : Int) 3 QModelIndex.invalid = some rowIdx ∧
      parent exPaged rowIdx = some QModelIndex.invalid) ∧
    (1 < exPaged.m_data.length →
      ∃ rowIdx d p dp dn,
        index exPaged ((1 : Nat) : Int) 3 QModelIndex.invalid = some rowIdx ∧
        rowIdx.isValid = true ∧
        rowIdx.row = ((1 : Nat) : Int) ∧ rowIdx.column = 3 ∧ rowIdx.internalPointer = some p ∧
        getRowNode exPaged 1 = some (some p) ∧
        index exPaged 0 0 rowIdx = some d ∧ d.isValid = true ∧
        d.internalPointer = some dp ∧ exPaged.heap[dp]? = some (Node.descriptionNode dn) ∧
        parent exPaged d = some (createIndex ((1 : Nat) : Int) 0 p) ∧
        (createIndex ((1 : Nat) : Int) 0 p).isValid = true ∧
        index exPaged ((1 : Nat) : Int) 0 QModelIndex.invalid
          = some (createIndex ((1 : Nat) : Int) 0 p))) :=
  ⟨reachable_exPaged, by decide, by decide,
    C3_index_then_parent exLib exPaged reachable_exPaged 1 3 (by decide) (by decide)⟩

/-- C4 (as stated) fails: in `exPaged` (cursor 2) the index of row 0 addresses a row
node with one child and its description index addresses a leaf, yet `rowCount`
is 2 for both. -/
theorem C4_counterexample_rowCount_of_nodes :
    index exPaged 0 0 QModelIndex.invalid = some (createIndex 0 0 1) ∧
    (exPaged.heap[1]?).map Node.childCount = some 1 ∧
    rowCount exPaged (createIndex 0 0 1) = 2 ∧
    index exPaged 0 0 (createIndex 0 0 1) = some (createIndex 0 0 2) ∧
    (exPaged.heap[2]?).map Node.childCount = some 0 ∧
    rowCount exPaged (createIndex 0 0 2) = 2 := by
  decide

/-- C4 (amended): `rowCount(parent)` is the paging cursor for every parent index,
whatever node the index addresses; the parent argument is not consulted. -/
theorem C4_rowCount_is_cursor (m : ContentManagerModel) (parent : QModelIndex) :
    rowCount m parent = m.zimCount ∧
    rowCount m parent = rowCount m QModelIndex.invalid :=
  ⟨rfl, rfl⟩

/-- C5 (as stated) fails: `setBooksData` on `exSixPaged` (cursor 5) leaves a top-level
`rowCount` of 5, not 0. -/
theorem C5_counterexample_cursor_survives_rebuild :
    (setBooksData exLib exSixPaged [exRecord "book1" "http://x/1.png"]).map
      (fun res => rowCount res.1 QModelIndex.invalid) = some 5 := by
  decide

/-- C5 (amended): `setBooksData` always returns and leaves the paging cursor as it
was; the top-level `rowCount` after the call equals the one before it, so it is 0
exactly when it was 0 before. -/
theorem C5_setBooksData_keeps_cursor (lib : Lib) (m : ContentManagerModel)
    (data : BookInfoList) :
    ∃ m1 ev, setBooksData lib m data = some (m1, ev) ∧ m1.zimCount = m.zimCount ∧
      rowCount m1 QModelIndex.invalid = rowCount m QModelIndex.invalid := by
  obtain ⟨m1, hs, _, _, hz, _⟩ := setBooksData_fresh lib m data
  exact ⟨m1, _, hs, hz, hz⟩

theorem buildMap_find_mem (ids : List String) (b : String) (r : Nat)
    (h : QMap.constFind (buildMapFrom [] 0 ids) b = some r) : b ∈ ids :=
  List.getElem?_mem (buildMap_find_sound ids b r h)

theorem buildMap_nodup (ids : List String) (hd : ids.Nodup) :
    QMap.size (buildMapFrom [] 0 ids) = ids.length ∧
    ∀ (i : Nat) (b : String), ids[i]? = some b →
      QMap.constFind (buildMapFrom [] 0 ids) b = some i := by
  induction ids using List.reverseRecOn with
  | nil =>
    refine ⟨rfl, ?_⟩
    intro i b h
    simp at h
  | append_singleton l a ih =>
    have hl : l.Nodup := (List.nodup_append.mp hd).1
    have ha : a ∉ l := by
      intro hmem
      have := (List.nodup_append.mp hd).2.2
      exact this hmem (List.mem_singleton_self a)
    obtain ⟨ih1, ih2⟩ := ih hl
    have hnone : QMap.constFind (buildMapFrom [] 0 l) a = none := by
      cases hf : QMap.constFind (buildMapFrom [] 0 l) a with
      | none => rfl
      | some r => exact absurd (buildMap_find_mem l a r hf) ha
    constructor
    · rw [buildMapFrom_snoc, QMap.size_assign, hnone]
      simp [ih1]
    · intro i b h
      rw [buildMapFrom_snoc, QMap.constFind_assign]
      rw [List.getElem?_append] at h
      split at h
      · have hb : b ∈ l := List.getElem?_mem h
        have hne : ¬ (b = a) := fun e => ha (e ▸ hb)
        simp only [hne, if_false]
        exact ih2 i b h
      · rename_i hge
        have hi2 : i - l.length < [a].length := getElem?_lt_of_eq_some _ _ _ h
        simp only [List.length_singleton] at hi2
        have hz : i - l.length = 0 := by omega
        rw [hz] at h
        simp only [List.getElem?_cons_zero, Option.some.injEq] at h
        have hi : i = l.length := by omega
        simp [h, hi]

/-- C2 (as stated) fails: a list of two records that carry the same id leaves a
book-id map with one entry, not two. -/
theorem C2_counterexample_duplicate_ids :
    [exRecord "book1" "http://x/1.png", exRecord "book1" "http://x/2.png"].length = 2 ∧
    (setBooksData exLib exNew
      [exRecord "book1" "http://x/1.png", exRecord "book1" "http://x/2.png"]).map
      (fun res => QMap.size res.1.bookIdToRowMap) = some 1 := by
  decide

/-- C2 (amended): for every record list whose ids are pairwise distinct,
`setBooksData` returns, the book-id map has exactly `n` entries, the root has `n`
children, and for each position `i` the map sends the id of record `i` to `i`,
the root child at `i` is a row node with that book id, and that row node has
exactly one child, a description node holding the description of record `i`. -/
theorem C2_setBooksData_map_and_children (lib : Lib) (m : ContentManagerModel)
    (data : BookInfoList) (hd : (bookIds lib data).Nodup) :
    ∃ m1 ev root, setBooksData lib m data = some (m1, ev) ∧
      QMap.size m1.bookIdToRowMap = data.length ∧
      (m1.rootNode.bind fun p => m1.heap[p]?) = some root ∧
      root.childCount = (data.length : Int) ∧
      ∀ (i : Nat) (bi : BookInfo), data[i]? = some bi →
        QMap.constFind m1.bookIdToRowMap (bookIdOf lib bi) = some i ∧
        ∃ rowNode dp dn, rowNodeAt m1 i = some rowNode ∧
          rowNode.m_bookId = bookIdOf lib bi ∧ rowNode.m_childItems = [dp] ∧
          m1.heap[dp]? = some (Node.descriptionNode dn) ∧
          dn.m_desc = (bi.get "description").toString lib := by
  obtain ⟨m1, hs, hf, hdata, _, _, _⟩ := setBooksData_fresh lib m data
  have ht : TreeOK lib m1 := FreshFor.treeOK lib m1 (by rw [hdata]; exact hf)
  obtain ⟨hsize, hfind⟩ := buildMap_nodup _ hd
  refine ⟨m1, _, Node.rowNode
      { m_itemData := headerColumns lib, m_bookId := "", m_parentItem := none,
        m_childItems := rowPtrs data.length, m_downloadState := none }, hs, ?_, ?_, ?_, ?_⟩
  · rw [hf.map, hsize]
    simp [bookIds]
  · simp [hf.root, hf.rootNode]
  · simp [Node.childCount, rowPtrs_length]
  · intro i bi hi
    have hlt : i < data.length := getElem?_lt_of_eq_some _ _ _ hi
    constructor
    · rw [hf.map]
      apply hfind
      simp [bookIds, List.getElem?_map, hi]
    · refine ⟨builtRowNode lib m1 bi i, 2 + 2 * i, _, ?_, rfl, rfl, hf.descs i bi hi, rfl⟩
      have hg : getRowNode m1 i = some (some (1 + 2 * i)) :=
        getRowNode_eq lib m1 ht i (by rw [hdata]; exact hlt)
      simp [rowNodeAt, hg, getRow, hf.rows i bi hi]

/-- C2 (amended) at two records with the ids `book1` and `book2`. -/
theorem C2_setBooksData_map_and_children_witness :
    (bookIds exLib exTwoBooks).Nodup ∧
    ∃ m1 ev root, setBooksData exLib exNew exTwoBooks = some (m1, ev) ∧
      QMap.size m1.bookIdToRowMap = exTwoBooks.length ∧
      (m1.rootNode.bind fun p => m1.heap[p]?) = some root ∧
      root.childCount = (exTwoBooks.length : Int) ∧
      ∀ (i : Nat) (bi : BookInfo), exTwoBooks[i]? = some bi →
        QMap.constFind m1.bookIdToRowMap (bookIdOf exLib bi) = some i ∧
        ∃ rowNode dp dn, rowNodeAt m1 i = some rowNode ∧
          rowNode.m_bookId = bookIdOf exLib bi ∧ rowNode.m_childItems = [dp] ∧
          m1.heap[dp]? = some (Node.descriptionNode dn) ∧
          dn.m_desc = (bi.get "description").toString exLib :=
  ⟨by decide, C2_setBooksData_map_and_children exLib exNew exTwoBooks (by decide)⟩

/-- C6: for a valid index and the display or the auxiliary-info role, `data` on
column 0 returns stored image bytes as they are without a fetch, returns the
cached bytes without a fetch when the stored value is a cached URL, and returns
the null value with exactly one fetch request for (URL, book id of the node) when
the stored value is a non-empty URL absent from the cache; on a column other
than 0 it returns the stored value of that column and requests no fetch. -/
theorem C6_data_icon_cell (lib : Lib) (m : ContentManagerModel) (idx : QModelIndex)
    (role : Int) (p : Ptr) (node : Node) (bytes cached : QByteArray) (url : String)
    (hrole : role = DisplayRole ∨ role = AdditionalInfoRole)
    (hvalid : idx.isValid = true) (hptr : idx.internalPointer = some p)
    (hnode : m.heap[p]? = some node) :
    (idx.column = 0 → node.data 0 = QVariant.byteArray bytes →
      data lib m idx role = some (QVariant.byteArray bytes, [])) ∧
    (idx.column = 0 → node.data 0 = QVariant.string url →
      QMap.constFind m.m_iconMap url = some cached →
      data lib m idx role = some (QVariant.byteArray cached, [])) ∧
    (idx.column = 0 → node.data 0 = QVariant.string url → url ≠ "" →
      QMap.constFind m.m_iconMap url = none →
      data lib m idx role = some (QVariant.invalid, [Event.addDownload url node.getBookId])) ∧
    (idx.column ≠ 0 → data lib m idx role = some (node.data idx.column, [])) := by
  have hr : (decide (role = DisplayRole) || decide (role = AdditionalInfoRole)) = true := by
    rcases hrole with h | h <;> simp [h]
  refine ⟨?_, ?_, ?_, ?_⟩
  · intro hc hs
    simp [data, hr, hvalid, hptr, hnode, hc, hs, getThumbnail, QVariant.isByteArray]
  · intro hc hs hf
    simp [data, hr, hvalid, hptr, hnode, hc, hs, getThumbnail, QVariant.isByteArray,
      QVariant.toString, hf]
  · intro hc hs hne hf
    simp [data, hr, hvalid, hptr, hnode, hc, hs, getThumbnail, QVariant.isByteArray,
      QVariant.toString, hf, hne]
  · intro hc
    simp [data, hr, hvalid, hptr, hnode, hc]

/-- C6 at row 0 of `exPaged`, whose icon is the uncached URL `http://x/1.png`. -/
theorem C6_data_icon_cell_witness :
    (DisplayRole = DisplayRole ∨ DisplayRole = AdditionalInfoRole) ∧
    (createIndex 0 0 1).isValid = true ∧
    (createIndex 0 0 1).internalPointer = some 1 ∧
    exPaged.heap[1]? = some (Node.rowNode
      (builtRowNode exLib exNew (exRecord "book1" "http://x/1.png") 0)) ∧
    (Node.rowNode (builtRowNode exLib exNew (exRecord "book1" "http://x/1.png") 0)).data 0
      = QVariant.string "http://x/1.png" ∧
    QMap.constFind exPaged.m_iconMap "http://x/1.png" = none ∧
    data exLib exPaged (createIndex 0 0 1) DisplayRole
      = some (QVariant.invalid, [Event.addDownload "http://x/1.png" "book1"]) :=
  ⟨Or.inl rfl, by decide, rfl, by decide, by decide, by decide,
    (C6_data_icon_cell exLib exPaged (createIndex 0 0 1) DisplayRole 1
      (Node.rowNode (builtRowNode exLib exNew (exRecord "book1" "http://x/1.png") 0))
      [] [] "http://x/1.png" (Or.inl rfl) (by decide) rfl (by decide)).2.2.1
      rfl (by decide) (by decide) (by decide)⟩

theorem getRowNode_ge (lib : Lib) (m : ContentManagerModel) (h : TreeOK lib m) (r : Nat)
    (hr : m.m_data.length ≤ r) : getRowNode m r = some none := by
  have hn : ¬ (r < m.m_data.length) := by omega
  simp [getRowNode, h.root, h.rootNode, Node.child, rowPtrs_length, hn]

theorem set_nonempty {α : Type} (l : List α) (a : α) (h : l ≠ []) : l.set 0 a ≠ [] := by
  intro hcon
  have := congrArg List.length hcon
  simp at this
  exact h this

theorem data_zero_set (cols : List QVariant) (v : QVariant) (b : String)
    (pp : Option Ptr) (ch : List Ptr) (ds : Option DownloadState) (h : cols ≠ []) :
    (Node.rowNode
      { m_itemData := cols.set 0 v, m_bookId := b, m_parentItem := pp,
        m_childItems := ch, m_downloadState := ds }).data 0 = v := by
  cases cols with
  | nil => exact absurd rfl h
  | cons a t => simp [Node.data]

/-- C7: in every reachable state, for a book id `b` that the book-id map sends to a
row `r` below the paging cursor, `updateImage(b, u, bytes)` returns, the
thumbnail cache then maps `u` to `bytes`, and `data(index(r, 0), display)` returns
`bytes` with no fetch request. -/
theorem C7_updateImage_then_data (lib : Lib) (m : ContentManagerModel)
    (hm : Reachable lib m) (b u : String) (bytes : QByteArray) (r : Nat)
    (hr : QMap.constFind m.bookIdToRowMap b = some r) (hz : (r : Int) < m.zimCount) :
    ∃ m1 ev idx, updateImage m b u bytes = some (m1, ev) ∧
      QMap.constFind m1.m_iconMap u = some bytes ∧
      index m1 (r : Int) 0 QModelIndex.invalid = some idx ∧ idx.isValid = true ∧
      data lib m1 idx DisplayRole = some (QVariant.byteArray bytes, []) := by
  rcases reachable_wf lib m hm with hu | ht
  · rw [hu.2.2.2.1] at hr
    simp [QMap.constFind_nil] at hr
  · obtain ⟨cols, ds, bi, hcols, hbi, hid, hrow, he⟩ := updateImage_eq lib m ht b u bytes r hr
    have hrlt : r < m.m_data.length := getElem?_lt_of_eq_some _ _ _ hbi
    have ht1 := TreeOK.set_row lib m ht r bi hbi (cols.set 0 (QVariant.byteArray bytes))
      (set_nonempty _ _ hcols) ds (QMap.assign m.m_iconMap u bytes)
    rw [hid] at ht1
    have hidx := index_top lib _ ht1 r 0
    simp only [hz, hrlt, le_refl, true_and, if_true] at hidx
    have hlen : 1 + 2 * r < m.heap.length := by have := ht.len; omega
    refine ⟨_, _, createIndex (r : Int) 0 (1 + 2 * r), he, ?_, ?_, ?_, ?_⟩
    · simp [QMap.constFind_assign]
    · rw [hidx]; simp
    · exact createIndex_isValid _ _ _ (by omega) (by omega)
    · have hv : (createIndex (r : Int) 0 (1 + 2 * r)).isValid = true :=
        createIndex_isValid _ _ _ (by omega) (by omega)
      simp only [data, DisplayRole, hv]
      simp [createIndex, List.getElem?_set, hlen, data_zero_set _ _ _ _ _ _ hcols,
        getThumbnail, QVariant.isByteArray]

/-- C7 at `exPaged`: `book2` is at row 1, below the cursor 2. -/
theorem C7_updateImage_then_data_witness :
    Reachable exLib exPaged ∧
    QMap.constFind exPaged.bookIdToRowMap "book2" = some 1 ∧
    (((1 : Nat) : Int) < exPaged.zimCount) ∧
    ∃ m1 ev idx, updateImage exPaged "book2" "http://x/2.png" [255, 216] = some (m1, ev) ∧
      QMap.constFind m1.m_iconMap "http://x/2.png" = some [255, 216] ∧
      index m1 ((1 : Nat) : Int) 0 QModelIndex.invalid = some idx ∧ idx.isValid = true ∧
      data exLib m1 idx DisplayRole = some (QVariant.byteArray [255, 216], []) :=
  ⟨reachable_exPaged, by decide, by decide,
    C7_updateImage_then_data exLib exPaged reachable_exPaged "book2" "http://x/2.png"
      [255, 216] 1 (by decide) (by decide)⟩

/-- C8 (as stated) fails: in the reachable state `exBuilt` the map sends `book1` to
row 0 while the cursor is 0; `updateImage` then emits a change notification whose
corners are the invalid index, not the cell (row 0, column 0). -/
theorem C8_counterexample_row_not_paged_in :
    Reachable exLib exBuilt ∧
    QMap.constFind exBuilt.bookIdToRowMap "book1" = some 0 ∧
    (updateImage exBuilt "book1" "http://x/1.png" [255, 216]).map Prod.snd
      = some [Event.dataChanged QModelIndex.invalid QModelIndex.invalid] :=
  ⟨reachable_exBuilt, by decide, by decide⟩

/-- C8 (amended): in every reachable state, for a book id `b` that the book-id map
sends to row `r`, `updateImage(b, u, bytes)` emits exactly one change
notification and both its corners are `index(r, 0)`.  When `r` is below the
paging cursor that index is valid and is the cell (row `r`, column 0) of the row
node holding `b`; when `r` is at or beyond the cursor it is the invalid index. -/
theorem C8_updateImage_notification (lib : Lib) (m : ContentManagerModel)
    (hm : Reachable lib m) (b u : String) (bytes : QByteArray) (r : Nat)
    (hr : QMap.constFind m.bookIdToRowMap b = some r) :
    ∃ m1 idx, updateImage m b u bytes = some (m1, [Event.dataChanged idx idx]) ∧
      index m1 (r : Int) 0 QModelIndex.invalid = some idx ∧
      ((r : Int) < m.zimCount →
        ∃ p node, idx = createIndex (r : Int) 0 p ∧ idx.isValid = true ∧
          getRowNode m1 r = some (some p) ∧ m1.heap[p]? = some (Node.rowNode node) ∧
          node.m_bookId = b) ∧
      (m.zimCount ≤ (r : Int) → idx = QModelIndex.invalid) := by
  rcases reachable_wf lib m hm with hu | ht
  · rw [hu.2.2.2.1] at hr
    simp [QMap.constFind_nil] at hr
  · obtain ⟨cols, ds, bi, hcols, hbi, hid, hrow, he⟩ := updateImage_eq lib m ht b u bytes r hr
    have hrlt : r < m.m_data.length := getElem?_lt_of_eq_some _ _ _ hbi
    have ht1 := TreeOK.set_row lib m ht r bi hbi (cols.set 0 (QVariant.byteArray bytes))
      (set_nonempty _ _ hcols) ds (QMap.assign m.m_iconMap u bytes)
    rw [hid] at ht1
    have hidx := index_top lib _ ht1 r 0
    have hlen : 1 + 2 * r < m.heap.length := by have := ht.len; omega
    refine ⟨_, _, he, ?_, ?_, ?_⟩
    · rw [hidx]; simp [hrlt]
    · intro hz
      refine ⟨1 + 2 * r,
        { m_itemData := cols.set 0 (QVariant.byteArray bytes), m_bookId := b,
          m_parentItem := some 0, m_childItems := [2 + 2 * r], m_downloadState := ds },
        by simp [hz], ?_, getRowNode_eq lib _ ht1 r hrlt, ?_, rfl⟩
      · simp only [hz, if_true]
        exact createIndex_isValid _ _ _ (by omega) (by omega)
      · simp [List.getElem?_set, hlen]
    · intro hz
      have : ¬ ((r : Int) < m.zimCount) := by omega
      simp [this]

/-- C8 (amended) at `exPaged`: `book2` is at row 1. -/
theorem C8_updateImage_notification_witness :
    Reachable exLib exPaged ∧
    QMap.constFind exPaged.bookIdToRowMap "book2" = some 1 ∧
    ∃ m1 idx, updateImage exPaged "book2" "http://x/2.png" [255, 216]
        = some (m1, [Event.dataChanged idx idx]) ∧
      index m1 ((1 : Nat) : Int) 0 QModelIndex.invalid = some idx ∧
      ((((1 : Nat) : Int)) < exPaged.zimCount →
        ∃ p node, idx = createIndex ((1 : Nat) : Int) 0 p ∧ idx.isValid = true ∧
          getRowNode m1 1 = some (some p) ∧ m1.heap[p]? = some (Node.rowNode node) ∧
          node.m_bookId = "book2") ∧
      (exPaged.zimCount ≤ ((1 : Nat) : Int) → idx = QModelIndex.invalid) :=
  ⟨reachable_exPaged, by decide,
    C8_updateImage_notification exLib exPaged reachable_exPaged "book2" "http://x/2.png"
      [255, 216] 1 (by decide)⟩

/-- C9 (as stated) fails: in the reachable state `exBuilt` the map sends `book2` to
row 1 while the cursor is 0; `removeDownload` then emits a change notification
whose corners are the invalid index, not the cell (row 1, column 5). -/
theorem C9_counterexample_row_not_paged_in :
    Reachable exLib exBuilt ∧
    QMap.constFind exBuilt.bookIdToRowMap "book2" = some 1 ∧
    (removeDownload exBuilt "book2").map Prod.snd
      = some [Event.dataChanged QModelIndex.invalid QModelIndex.invalid] :=
  ⟨reachable_exBuilt, by decide, by decide⟩

/-- C9 (amended): in every reachable state, for a book id `b` that the book-id map
sends to row `r`, `removeDownload(b)` returns; the new state is the old one with
the node of row `r` replaced by the same node with download state none (records,
cursor, map, cache, download table and every other node are unchanged); and
exactly one change notification is emitted, both corners being `index(r, 5)`:
the valid cell (row `r`, column 5) when `r` is below the paging cursor, the
invalid index when `r` is at or beyond it. -/
theorem C9_removeDownload_effect (lib : Lib) (m : ContentManagerModel)
    (hm : Reachable lib m) (b : String) (r : Nat)
    (hr : QMap.constFind m.bookIdToRowMap b = some r) :
    ∃ m1 idx p node, removeDownload m b = some (m1, [Event.dataChanged idx idx]) ∧
      getRowNode m r = some (some p) ∧ m.heap[p]? = some (Node.rowNode node) ∧
      node.m_bookId = b ∧
      m1 = { m with heap := m.heap.set p (Node.rowNode { node with m_downloadState := none }) } ∧
      rowNodeAt m1 r = some { node with m_downloadState := none } ∧
      (∀ r2 : Nat, r2 ≠ r → rowNodeAt m1 r2 = rowNodeAt m r2) ∧
      index m1 (r : Int) 5 QModelIndex.invalid = some idx ∧
      ((r : Int) < m.zimCount → idx = createIndex (r : Int) 5 p ∧ idx.isValid = true) ∧
      (m.zimCount ≤ (r : Int) → idx = QModelIndex.invalid) := by
  rcases reachable_wf lib m hm with hu | ht
  · rw [hu.2.2.2.1] at hr
    simp [QMap.constFind_nil] at hr
  · obtain ⟨cols, ds, bi, hcols, hbi, hid, hrow, he⟩ := removeDownload_eq lib m ht b r hr
    have hrlt : r < m.m_data.length := getElem?_lt_of_eq_some _ _ _ hbi
    have ht1 := TreeOK.set_row lib m ht r bi hbi cols hcols none m.m_iconMap
    rw [hid] at ht1
    have hidx := index_top lib _ ht1 r 5
    have hlen : 1 + 2 * r < m.heap.length := by have := ht.len; omega
    refine ⟨_, _, 1 + 2 * r, _, he, getRowNode_eq lib m ht r hrlt, hrow, rfl, rfl, ?_, ?_, ?_,
      ?_, ?_⟩
    · have hg := getRowNode_eq lib _ ht1 r hrlt
      simp [rowNodeAt, hg, getRow, List.getElem?_set, hlen]
    · intro r2 hne
      by_cases h2 : r2 < m.m_data.length
      · have hg1 := getRowNode_eq lib _ ht1 r2 h2
        have hg := getRowNode_eq lib m ht r2 h2
        have hne2 : ¬ (1 + 2 * r = 1 + 2 * r2) := by omega
        simp [rowNodeAt, hg1, hg, getRow, List.getElem?_set, hne2]
      · have hg1 := getRowNode_ge lib _ ht1 r2 (by simpa using h2)
        have hg := getRowNode_ge lib m ht r2 (by omega)
        simp [rowNodeAt, hg1, hg]
    · rw [hidx]; simp [hrlt]
    · intro hz
      simp only [hz, if_true, true_and]
      exact createIndex_isValid _ _ _ (by omega) (by omega)
    · intro hz
      have : ¬ ((r : Int) < m.zimCount) := by omega
      simp [this]

/-- C9 (amended) at `exPaged`: `book2` is at row 1. -/
theorem C9_removeDownload_effect_witness :
    Reachable exLib exPaged ∧
    QMap.constFind exPaged.bookIdToRowMap "book2" = some 1 ∧
    ∃ m1 idx p node, removeDownload exPaged "book2" = some (m1, [Event.dataChanged idx idx]) ∧
      getRowNode exPaged 1 = some (some p) ∧ exPaged.heap[p]? = some (Node.rowNode node) ∧
      node.m_bookId = "book2" ∧
      m1 = { exPaged with
        heap := exPaged.heap.set p (Node.rowNode { node with m_downloadState := none }) } ∧
      rowNodeAt m1 1 = some { node with m_downloadState := none } ∧
      (∀ r2 : Nat, r2 ≠ 1 → rowNodeAt m1 r2 = rowNodeAt exPaged r2) ∧
      index m1 ((1 : Nat) : Int) 5 QModelIndex.invalid = some idx ∧
      (((1 : Nat) : Int) < exPaged.zimCount →
        idx = createIndex ((1 : Nat) : Int) 5 p ∧ idx.isValid = true) ∧
      (exPaged.zimCount ≤ ((1 : Nat) : Int) → idx = QModelIndex.invalid) :=
  ⟨reachable_exPaged, by decide,
    C9_removeDownload_effect exLib exPaged reachable_exPaged "book2" 1 (by decide)⟩

/-- C10: `sort` forwards nothing for the columns 0, 4 and 5; for the columns 1, 2
and 3 it forwards exactly one request, with the key `title`, `date`, `size` and
the flag ascending set exactly for the ascending order; for every column the
state is returned unchanged and nothing but a sort request is sent out. -/
theorem C10_sort_forwards_request (m : ContentManagerModel) (o : SortOrder) :
    sort m 0 o = (m, []) ∧ sort m 4 o = (m, []) ∧ sort m 5 o = (m, []) ∧
    sort m 1 o = (m, [Event.setSortBy "title" (decide (o = SortOrder.AscendingOrder))]) ∧
    sort m 2 o = (m, [Event.setSortBy "date" (decide (o = SortOrder.AscendingOrder))]) ∧
    sort m 3 o = (m, [Event.setSortBy "size" (decide (o = SortOrder.AscendingOrder))]) ∧
    ∀ c : Int, (sort m c o).1 = m ∧
      ∀ e ∈ (sort m c o).2,
        ∃ key, e = Event.setSortBy key (decide (o = SortOrder.AscendingOrder)) := by
  refine ⟨by simp [sort], by simp [sort], by simp [sort], by simp [sort], by simp [sort],
    by simp [sort], ?_⟩
  intro c
  unfold sort
  split
  · simp
  · simp

/-- C11: for every book id that is not a key of the book-id map, `updateImage`
returns the state it was given and emits nothing: the thumbnail cache and every
node, hence every icon value, are as before. -/
theorem C11_updateImage_unmapped_id (m : ContentManagerModel) (b u : String)
    (bytes : QByteArray) (h : QMap.constFind m.bookIdToRowMap b = none) :
    updateImage m b u bytes = some (m, []) := by
  simp [updateImage, h]

/-- C11 at `exPaged` and the id `book9`, which no record carries. -/
theorem C11_updateImage_unmapped_id_witness :
    QMap.constFind exPaged.bookIdToRowMap "book9" = none ∧
    updateImage exPaged "book9" "http://x/9.png" [255, 216] = some (exPaged, []) :=
  ⟨by decide, C11_updateImage_unmapped_id exPaged "book9" "http://x/9.png" [255, 216]
    (by decide)⟩

theorem reachable_exTracked : Reachable exLib exTracked :=
  reachable_rebuild _ _ _ (Reachable.new [("book2", 7)])

/-- C12 (as stated) fails: in the reachable state `exTracked` the id `book2` is mapped
to row 1 while the cursor is 0, so the row is not paged in; `updateDownload` still
emits a change notification, and `removeDownload` emits one and clears the
download state 7 that row 1 holds. -/
theorem C12_counterexample_mapped_row_not_paged_in :
    Reachable exLib exTracked ∧
    QMap.constFind exTracked.bookIdToRowMap "book2" = some 1 ∧
    rowCount exTracked QModelIndex.invalid ≤ 1 ∧
    updateDownload exTracked "book2"
      = some (exTracked, [Event.dataChanged QModelIndex.invalid QModelIndex.invalid]) ∧
    (rowNodeAt exTracked 1).map (fun n => n.m_downloadState) = some (some 7) ∧
    (removeDownload exTracked "book2").map
      (fun res => ((rowNodeAt res.1 1).map (fun n => n.m_downloadState), res.2))
      = some (some none, [Event.dataChanged QModelIndex.invalid QModelIndex.invalid]) :=
  ⟨reachable_exTracked, by decide, by decide, by decide, by decide, by decide⟩

/-- C12 (amended): for a book id absent from the book-id map `updateDownload` and
`removeDownload` return the state unchanged and emit nothing.  For a book id
mapped to a row at or beyond the paging cursor, in a reachable state,
`updateDownload` returns the state unchanged and emits one change notification
whose corners are the invalid index, and `removeDownload` emits the same
notification and leaves the row with download state none. -/
theorem C12_download_events_when_not_paged_in (lib : Lib) (m : ContentManagerModel)
    (hm : Reachable lib m) (b : String) :
    (QMap.constFind m.bookIdToRowMap b = none →
      updateDownload m b = some (m, []) ∧ removeDownload m b = some (m, [])) ∧
    (∀ r : Nat, QMap.constFind m.bookIdToRowMap b = some r → m.zimCount ≤ (r : Int) →
      updateDownload m b
        = some (m, [Event.dataChanged QModelIndex.invalid QModelIndex.invalid]) ∧
      ∃ m1 node, removeDownload m b
        = some (m1, [Event.dataChanged QModelIndex.invalid QModelIndex.invalid]) ∧
        rowNodeAt m1 r = some node ∧ node.m_downloadState = none) := by
  constructor
  · intro h
    simp [updateDownload, removeDownload, h]
  · intro r hr hz
    have hnz : ¬ ((r : Int) < m.zimCount) := by omega
    rcases reachable_wf lib m hm with hu | ht
    · rw [hu.2.2.2.1] at hr
      simp [QMap.constFind_nil] at hr
    · constructor
      · simp [updateDownload, hr, index_top lib m ht r 5, hnz]
      · obtain ⟨cols, ds, bi, hcols, hbi, hid, hrow, he⟩ := removeDownload_eq lib m ht b r hr
        have hrlt : r < m.m_data.length := getElem?_lt_of_eq_some _ _ _ hbi
        have ht1 := TreeOK.set_row lib m ht r bi hbi cols hcols none m.m_iconMap
        rw [hid] at ht1
        have hlen : 1 + 2 * r < m.heap.length := by have := ht.len; omega
        simp only [hnz, if_false] at he
        refine ⟨_,
          { m_itemData := cols, m_bookId := b, m_parentItem := some 0,
            m_childItems := [2 + 2 * r], m_downloadState := none }, he, ?_, rfl⟩
        have hg := getRowNode_eq lib _ ht1 r hrlt
        simp [rowNodeAt, hg, getRow, List.getElem?_set, hlen]

/-- C12 (amended) at `exBuilt` (cursor 0) and the id `book2`, mapped to row 1. -/
theorem C12_download_events_when_not_paged_in_witness :
    Reachable exLib exBuilt ∧
    ((QMap.constFind exBuilt.bookIdToRowMap "book2" = none →
      updateDownload exBuilt "book2" = some (exBuilt, []) ∧
      removeDownload exBuilt "book2" = some (exBuilt, [])) ∧
    (∀ r : Nat, QMap.constFind exBuilt.bookIdToRowMap "book2" = some r →
      exBuilt.zimCount ≤ (r : Int) →
      updateDownload exBuilt "book2"
        = some (exBuilt, [Event.dataChanged QModelIndex.invalid QModelIndex.invalid]) ∧
      ∃ m1 node, removeDownload exBuilt "book2"
        = some (m1, [Event.dataChanged QModelIndex.invalid QModelIndex.invalid]) ∧
        rowNodeAt m1 r = some node ∧ node.m_downloadState = none)) :=
  ⟨reachable_exBuilt, C12_download_events_when_not_paged_in exLib exBuilt reachable_exBuilt
    "book2"⟩

/-- C13 (as stated) fails: `exShrunk` is reached from the constructed model by
`setBooksData` with six records, one top-level `fetchMore` and `setBooksData`
with one record; its top-level `rowCount` is 5 while it holds 1 record. -/
theorem C13_counterexample_cursor_exceeds_records :
    exShrunk = rebuild exLib
      (fetchMore (rebuild exLib (ContentManagerModel.new []) exSixBooks)
        QModelIndex.invalid).1 [exRecord "book1" "http://x/1.png"] ∧
    rowCount exShrunk QModelIndex.invalid = 5 ∧ exShrunk.m_data.length = 1 :=
  ⟨rfl, by decide, by decide⟩

/-- C13 (amended): in every state reachable from the constructed model by
top-level `fetchMore` calls and by `setBooksData` calls that each supply at least
as many records as the cursor counts at the time of the call, the top-level
`rowCount` is non-negative and does not exceed the number of records held. -/
theorem C13_rowCount_bounded_by_records (lib : Lib) (m : ContentManagerModel)
    (hm : PagedReachable lib m) :
    0 ≤ rowCount m QModelIndex.invalid ∧
    rowCount m QModelIndex.invalid ≤ (m.m_data.length : Int) := by
  induction hm with
  | new downloads => simp [rowCount, ContentManagerModel.new]
  | setBooksData m m1 data ev _ hle hs ih =>
    obtain ⟨m2, hs2, _, hd, hz, _⟩ := setBooksData_fresh lib m data
    rw [hs2] at hs
    have hm : m2 = m1 := congrArg Prod.fst (Option.some.inj hs)
    subst hm
    simp only [rowCount] at ih ⊢
    rw [hz, hd]
    exact ⟨ih.1, hle⟩
  | fetchMore m _ ih =>
    simp only [rowCount] at ih ⊢
    rw [fetchMore_top_zimCount, fetchMore_m_data]
    omega

theorem pagedReachable_exSixPaged : PagedReachable exLib exSixPaged := by
  obtain ⟨m1, hs, _⟩ := setBooksData_fresh exLib exNew exSixBooks
  have h1 : exSixBuilt = m1 := by simp [exSixBuilt, rebuild, hs]
  have h2 : PagedReachable exLib exSixBuilt := by
    rw [h1]
    exact PagedReachable.setBooksData exNew m1 exSixBooks _ (PagedReachable.new [])
      (by decide) hs
  exact PagedReachable.fetchMore _ h2

/-- C13 (amended) at `exSixPaged`: six records, cursor 5. -/
theorem C13_rowCount_bounded_by_records_witness :
    PagedReachable exLib exSixPaged ∧
    0 ≤ rowCount exSixPaged QModelIndex.invalid ∧
    rowCount exSixPaged QModelIndex.invalid ≤ (exSixPaged.m_data.length : Int) :=
  ⟨pagedReachable_exSixPaged,
    C13_rowCount_bounded_by_records exLib exSixPaged pagedReachable_exSixPaged⟩

/-- C14 (as stated) fails: row 0 of `exPaged` stores the uncached URL
`http://x/1.png`; two consecutive `data` calls on its icon cell hand two fetch
requests for that URL to the thumbnail downloader. -/
theorem C14_counterexample_two_requests :
    index exPaged 0 0 QModelIndex.invalid = some (createIndex 0 0 1) ∧
    (exPaged.heap[1]?).map (fun n => n.data 0) = some (QVariant.string "http://x/1.png") ∧
    QMap.constFind exPaged.m_iconMap "http://x/1.png" = none ∧
    dataTwice exLib exPaged (createIndex 0 0 1) DisplayRole
      = some [Event.addDownload "http://x/1.png" "book1",
              Event.addDownload "http://x/1.png" "book1"] := by
  decide

/-- C14 (amended): for a valid column-0 index of a node whose stored icon value is
a non-empty URL `u` absent from the thumbnail cache, each `data` call with the
display role issues exactly one fetch request for `u` and the book id of the
node, so two consecutive calls issue exactly two. -/
theorem C14_data_requests_every_call (lib : Lib) (m : ContentManagerModel)
    (idx : QModelIndex) (p : Ptr) (node : Node) (u : String)
    (hvalid : idx.isValid = true) (hcol : idx.column = 0)
    (hptr : idx.internalPointer = some p) (hnode : m.heap[p]? = some node)
    (hicon : node.data 0 = QVariant.string u) (hne : u ≠ "")
    (hmiss : QMap.constFind m.m_iconMap u = none) :
    data lib m idx DisplayRole = some (QVariant.invalid, [Event.addDownload u node.getBookId]) ∧
    dataTwice lib m idx DisplayRole
      = some [Event.addDownload u node.getBookId, Event.addDownload u node.getBookId] := by
  have h1 : data lib m idx DisplayRole
      = some (QVariant.invalid, [Event.addDownload u node.getBookId]) := by
    simp [data, DisplayRole, hvalid, hptr, hnode, hcol, hicon, getThumbnail,
      QVariant.isByteArray, QVariant.toString, hmiss, hne]
  refine ⟨h1, ?_⟩
  simp [dataTwice, h1]

/-- C14 (amended) at row 0 of `exPaged`. -/
theorem C14_data_requests_every_call_witness :
    (createIndex 0 0 1).isValid = true ∧ (createIndex 0 0 1).column = 0 ∧
    (createIndex 0 0 1).internalPointer = some 1 ∧
    exPaged.heap[1]? = some (Node.rowNode
      (builtRowNode exLib exNew (exRecord "book1" "http://x/1.png") 0)) ∧
    (Node.rowNode (builtRowNode exLib exNew (exRecord "book1" "http://x/1.png") 0)).data 0
      = QVariant.string "http://x/1.png" ∧
    "http://x/1.png" ≠ "" ∧
    QMap.constFind exPaged.m_iconMap "http://x/1.png" = none ∧
    data exLib exPaged (createIndex 0 0 1) DisplayRole
      = some (QVariant.invalid,
          [Event.addDownload "http://x/1.png"
            (Node.rowNode
              (builtRowNode exLib exNew (exRecord "book1" "http://x/1.png") 0)).getBookId]) ∧
    dataTwice exLib exPaged (createIndex 0 0 1) DisplayRole
      = some [Event.addDownload "http://x/1.png"
            (Node.rowNode
              (builtRowNode exLib exNew (exRecord "book1" "http://x/1.png") 0)).getBookId,
          Event.addDownload "http://x/1.png"
            (Node.rowNode
              (builtRowNode exLib exNew (exRecord "book1" "http://x/1.png") 0)).getBookId] :=
  ⟨by decide, rfl, rfl, by decide, by decide, by decide, by decide,
    C14_data_requests_every_call exLib exPaged (createIndex 0 0 1) 1
      (Node.rowNode (builtRowNode exLib exNew (exRecord "book1" "http://x/1.png") 0))
      "http://x/1.png" (by decide) rfl rfl (by decide) (by decide) (by decide) (by decide)⟩

/-- C15: `canFetchMore` on the top level is true exactly when the paging cursor `c`
is below the record count `n`; in such a state `fetchMore` on the top level emits
one insert-rows bracket for the rows `c .. c + k - 1` with
`k = min 5 (n - c) ≥ 1` and leaves the cursor at `c + k`, and the bracketed rows
are exactly the rows that `rowCount` counts after the call and did not count
before. -/
theorem C15_fetchMore_bracket (m : ContentManagerModel) :
    (canFetchMore m QModelIndex.invalid = true ↔ m.zimCount < (m.m_data.length : Int)) ∧
    (m.zimCount < (m.m_data.length : Int) →
      1 ≤ min 5 ((m.m_data.length : Int) - m.zimCount) ∧
      fetchMore m QModelIndex.invalid
        = ({ m with zimCount := m.zimCount + min 5 ((m.m_data.length : Int) - m.zimCount) },
           [Event.rowsAboutToBeInserted QModelIndex.invalid m.zimCount
              (m.zimCount + min 5 ((m.m_data.length : Int) - m.zimCount) - 1),
            Event.rowsInserted QModelIndex.invalid m.zimCount
              (m.zimCount + min 5 ((m.m_data.length : Int) - m.zimCount) - 1)]) ∧
      ∀ r : Int,
        (m.zimCount ≤ r ∧
          r ≤ m.zimCount + min 5 ((m.m_data.length : Int) - m.zimCount) - 1) ↔
        (rowCount m QModelIndex.invalid ≤ r ∧
          r < rowCount (fetchMore m QModelIndex.invalid).1 QModelIndex.invalid)) := by
  refine ⟨by simp [canFetchMore, invalid_isValid], ?_⟩
  intro h
  refine ⟨by omega, by simp [fetchMore, invalid_isValid], ?_⟩
  intro r
  simp only [rowCount, fetchMore_top_zimCount]
  omega

/-- C15 at `exSixPaged`: cursor 5 of six records, so the bracket is row 5 alone. -/
theorem C15_fetchMore_bracket_witness :
    canFetchMore exSixPaged QModelIndex.invalid = true ∧
    exSixPaged.zimCount < (exSixPaged.m_data.length : Int) ∧
    1 ≤ min 5 ((exSixPaged.m_data.length : Int) - exSixPaged.zimCount) ∧
    fetchMore exSixPaged QModelIndex.invalid
      = ({ exSixPaged with
            zimCount := exSixPaged.zimCount
              + min 5 ((exSixPaged.m_data.length : Int) - exSixPaged.zimCount) },
         [Event.rowsAboutToBeInserted QModelIndex.invalid exSixPaged.zimCount
            (exSixPaged.zimCount
              + min 5 ((exSixPaged.m_data.length : Int) - exSixPaged.zimCount) - 1),
          Event.rowsInserted QModelIndex.invalid exSixPaged.zimCount
            (exSixPaged.zimCount
              + min 5 ((exSixPaged.m_data.length : Int) - exSixPaged.zimCount) - 1)]) :=
  ⟨(C15_fetchMore_bracket exSixPaged).1.mpr (by decide), by decide,
    ((C15_fetchMore_bracket exSixPaged).2 (by decide)).1,
    ((C15_fetchMore_bracket exSixPaged).2 (by decide)).2.1⟩

/-- C16: `setBooksData` returns for every record list, and for every position `i`
the row node at row `i` carries the id of record `i` and the download state that
the download table holds under that very id (none when the table has no entry
for it). -/
theorem C16_download_state_restored (lib : Lib) (m : ContentManagerModel)
    (data : BookInfoList) :
    ∃ m1 ev, setBooksData lib m data = some (m1, ev) ∧
      ∀ (i : Nat) (bi : BookInfo), data[i]? = some bi →
        ∃ node, rowNodeAt m1 i = some node ∧ node.m_bookId = bookIdOf lib bi ∧
          node.m_downloadState = QMap.constFind m.m_downloads (bookIdOf lib bi) ∧
          ∀ ds, QMap.constFind m.m_downloads (bookIdOf lib bi) = some ds →
            node.m_downloadState = some ds := by
  obtain ⟨m1, hs, hf, hdata, _, _, hdl⟩ := setBooksData_fresh lib m data
  have ht : TreeOK lib m1 := FreshFor.treeOK lib m1 (by rw [hdata]; exact hf)
  refine ⟨m1, _, hs, ?_⟩
  intro i bi hi
  have hlt : i < data.length := getElem?_lt_of_eq_some _ _ _ hi
  have hg : getRowNode m1 i = some (some (1 + 2 * i)) :=
    getRowNode_eq lib m1 ht i (by rw [hdata]; exact hlt)
  refine ⟨builtRowNode lib m1 bi i, ?_, rfl, ?_, ?_⟩
  · simp [rowNodeAt, hg, getRow, hf.rows i bi hi]
  · simp [builtRowNode, hdl]
  · intro ds hds
    simp [builtRowNode, hdl, hds]

/-- The traced loop reaches the state of `setupNodesLoop` and emits no signal. -/
theorem setupNodesLoopTrace_agrees (lib : Lib) (l : BookInfoList) :
    ∀ m : ContentManagerModel,
      (setupNodesLoopTrace lib m l).map (fun res => (res.1, signalsOf res.2))
        = (setupNodesLoop lib m l).map (fun m2 => (m2, ([] : List Event))) := by
  induction l with
  | nil => intro m; rfl
  | cons b rest ih =>
    intro m
    simp only [setupNodesLoopTrace, setupNodesLoop]
    cases hs : setupNodesStep lib m b with
    | none => rfl
    | some m1 =>
      simp only []
      have := ih m1
      cases ht : setupNodesLoopTrace lib m1 rest with
      | none =>
        rw [ht] at this
        cases hl : setupNodesLoop lib m1 rest with
        | none => rfl
        | some m2 => rw [hl] at this; cases this
      | some res =>
        obtain ⟨m2, t⟩ := res
        rw [ht] at this
        cases hl : setupNodesLoop lib m1 rest with
        | none => rw [hl] at this; cases this
        | some m3 =>
          rw [hl] at this
          simp only [Option.map_some', Option.some.injEq, Prod.mk.injEq] at this
          simp [signalsOf, this.1, this.2]

/-- The traced `setBooksData` reaches the state and emits the signals of
`setBooksData`. -/
theorem setBooksDataTrace_agrees (lib : Lib) (m : ContentManagerModel)
    (data : BookInfoList) :
    (setBooksDataTrace lib m data).map (fun res => (res.1, signalsOf res.2))
      = setBooksData lib m data := by
  have h := setupNodesLoopTrace_agrees lib data
    { m with
      m_data := data
      heap := [Node.rowNode
        { m_itemData := headerColumns lib, m_bookId := "", m_parentItem := none,
          m_childItems := [], m_downloadState := none }]
      rootNode := some 0
      bookIdToRowMap := [] }
  simp only [setBooksDataTrace, setBooksData, setupNodes, headerColumns] at h ⊢
  cases ht : setupNodesLoopTrace lib _ data with
  | none =>
    rw [ht] at h
    cases hl : setupNodesLoop lib _ data with
    | none => rfl
    | some m2 => rw [hl] at h; cases h
  | some res =>
    obtain ⟨m2, t⟩ := res
    rw [ht] at h
    cases hl : setupNodesLoop lib _ data with
    | none => rw [hl] at h; cases h
    | some m3 =>
      rw [hl] at h
      simp only [Option.map_some', Option.some.injEq, Prod.mk.injEq] at h
      have hsig : ∀ (a b : List TraceItem), signalsOf (a ++ b) = signalsOf a ++ signalsOf b := by
        intro a b
        induction a with
        | nil => rfl
        | cons x xs ih => cases x <;> simp [signalsOf, ih]
      simp [signalsOf, hsig, h.1, h.2]

/-- Shape of the trace of `setBooksData` for every input: the record list and the
root are replaced before `beginResetModel`; the map is cleared, refilled and the
rows are appended inside the bracket; one `dataChanged` follows `endResetModel`. -/
theorem setBooksDataTrace_shape (lib : Lib) (m : ContentManagerModel)
    (data : BookInfoList) :
    ∃ m1, setBooksDataTrace lib m data = some (m1,
      [TraceItem.mutation Mutation.replaceRecords, TraceItem.mutation Mutation.replaceRoot,
       TraceItem.signal Event.modelAboutToBeReset, TraceItem.mutation Mutation.clearMap]
      ++ (data.flatMap fun b =>
        [TraceItem.mutation (Mutation.assignMap (bookIdOf lib b)),
         TraceItem.mutation (Mutation.appendRow (bookIdOf lib b))])
      ++ [TraceItem.signal Event.modelReset,
          TraceItem.signal (Event.dataChanged QModelIndex.invalid QModelIndex.invalid)]) := by
  have hloop : ∀ (l : BookInfoList) (pre : BookInfoList) (m0 : ContentManagerModel),
      FreshFor lib m0 pre →
      ∃ m2, setupNodesLoopTrace lib m0 l = some (m2, l.flatMap fun b =>
        [TraceItem.mutation (Mutation.assignMap (bookIdOf lib b)),
         TraceItem.mutation (Mutation.appendRow (bookIdOf lib b))]) := by
    intro l
    induction l with
    | nil => intro pre m0 _; exact ⟨m0, rfl⟩
    | cons b rest ih =>
      intro pre m0 h0
      obtain ⟨m1, hs, hf, _⟩ := setupNodesStep_fresh lib m0 pre b h0
      obtain ⟨m2, hl⟩ := ih (pre ++ [b]) m1 hf
      exact ⟨m2, by simp [setupNodesLoopTrace, hs, hl, bookIdOf]⟩
  have h0 : FreshFor lib
      { m with
        m_data := data
        heap := [Node.rowNode
          { m_itemData := headerColumns lib, m_bookId := "", m_parentItem := none,
            m_childItems := [], m_downloadState := none }]
        rootNode := some 0
        bookIdToRowMap := [] } [] := by
    refine ⟨rfl, rfl, rfl, ?_, ?_, rfl⟩
    · intro i b hi; simp at hi
    · intro i b hi; simp at hi
  obtain ⟨m2, hl⟩ := hloop data [] _ h0
  refine ⟨m2, ?_⟩
  simp only [setBooksDataTrace, headerColumns] at hl ⊢
  rw [hl]

/-- C17 (the code at a failing input): in the trace of `setBooksData` on the
constructed model and one record, the record list and the root node are replaced
before the reset-begin signal; the other writes lie inside the reset bracket and
one full-extent change notification follows reset-end. -/
theorem C17_trace_writes_before_reset_begin :
    (setBooksDataTrace exLib exNew [exRecord "book1" "http://x/1.png"]).map Prod.snd
      = some
        [TraceItem.mutation Mutation.replaceRecords,
         TraceItem.mutation Mutation.replaceRoot,
         TraceItem.signal Event.modelAboutToBeReset,
         TraceItem.mutation Mutation.clearMap,
         TraceItem.mutation (Mutation.assignMap "book1"),
         TraceItem.mutation (Mutation.appendRow "book1"),
         TraceItem.signal Event.modelReset,
         TraceItem.signal (Event.dataChanged QModelIndex.invalid QModelIndex.invalid)] := by
  decide

theorem getElem?_snoc_ne (l : List String) (a b : String) (h : b ≠ a) (j : Nat) :
    (l ++ [a])[j]? = some b ↔ l[j]? = some b := by
  rw [List.getElem?_append]
  split
  · rfl
  · rename_i hge
    have hnone : l[j]? = none := List.getElem?_eq_none (by omega)
    rw [hnone]
    constructor
    · intro hj
      have hlt : j - l.length < [a].length := getElem?_lt_of_eq_some _ _ _ hj
      simp only [List.length_singleton] at hlt
      have hz : j - l.length = 0 := by omega
      rw [hz] at hj
      simp only [List.getElem?_cons_zero, Option.some.injEq] at hj
      exact absurd hj.symm h
    · intro hj; cases hj

/-- The map built from a list of ids sends an id to a position exactly when that
is the last position at which the id occurs. -/
theorem buildMap_last (ids : List String) :
    ∀ (b : String) (r : Nat), QMap.constFind (buildMapFrom [] 0 ids) b = some r ↔
      (ids[r]? = some b ∧ ∀ j : Nat, r < j → ids[j]? ≠ some b) := by
  induction ids using List.reverseRecOn with
  | nil =>
    intro b r
    simp [buildMapFrom, QMap.constFind_nil]
  | append_singleton l a ih =>
    intro b r
    rw [buildMapFrom_snoc, QMap.constFind_assign]
    by_cases hba : b = a
    · subst hba
      simp only [if_true, Nat.zero_add, Option.some.injEq]
      constructor
      · intro hr
        subst hr
        refine ⟨by simp, ?_⟩
        intro j hj
        rw [List.getElem?_eq_none (by simp; omega)]
        simp
      · rintro ⟨h1, h2⟩
        have hlt : r < (l ++ [b]).length := getElem?_lt_of_eq_some _ _ _ h1
        simp only [List.length_append, List.length_singleton] at hlt
        by_contra hne
        have hr : r < l.length := by omega
        exact h2 l.length hr (by simp)
    · simp only [hba, if_false]
      rw [ih b r, getElem?_snoc_ne l a b hba r]
      constructor
      · rintro ⟨h1, h2⟩
        refine ⟨h1, ?_⟩
        intro j hj hcon
        exact h2 j hj ((getElem?_snoc_ne l a b hba j).mp hcon)
      · rintro ⟨h1, h2⟩
        refine ⟨h1, ?_⟩
        intro j hj hcon
        exact h2 j hj ((getElem?_snoc_ne l a b hba j).mpr hcon)

/-- The keys of the map built from a list of ids are the ids of the list. -/
theorem buildMap_contains (ids : List String) (b : String) :
    QMap.contains (buildMapFrom [] 0 ids) b = true ↔ b ∈ ids := by
  constructor
  · intro h
    simp only [QMap.contains, Option.isSome_iff_exists] at h
    obtain ⟨r, hr⟩ := h
    exact buildMap_find_mem ids b r hr
  · induction ids using List.reverseRecOn with
    | nil => intro h; simp at h
    | append_singleton l a ih =>
      intro h
      simp only [QMap.contains, buildMapFrom_snoc, QMap.constFind_assign]
      by_cases hba : b = a
      · simp [hba]
      · simp only [hba, if_false]
        have hl : b ∈ l := by
          rcases List.mem_append.mp h with h1 | h1
          · exact h1
          · exact absurd (List.mem_singleton.mp h1) hba
        exact ih hl

/-- C18: for every record list, ids distinct or not, `setBooksData` returns; the
root has `n` children and the child at position `i` is the row node of record
`i`; the keys of the book-id map are exactly the ids occurring in the list,
whatever the map held before; and an id is mapped to a position exactly when
that is the last position at which the id occurs in the list. -/
theorem C18_setBooksData_last_occurrence_wins (lib : Lib) (m : ContentManagerModel)
    (data : BookInfoList) :
    ∃ m1 ev root, setBooksData lib m data = some (m1, ev) ∧
      (m1.rootNode.bind fun p => m1.heap[p]?) = some root ∧
      root.childCount = (data.length : Int) ∧
      (∀ (i : Nat) (bi : BookInfo), data[i]? = some bi →
        ∃ node, rowNodeAt m1 i = some node ∧ node.m_bookId = bookIdOf lib bi) ∧
      (∀ b : String, QMap.contains m1.bookIdToRowMap b = true ↔ b ∈ bookIds lib data) ∧
      (∀ (b : String) (r : Nat), QMap.constFind m1.bookIdToRowMap b = some r ↔
        ((bookIds lib data)[r]? = some b ∧
          ∀ j : Nat, r < j → (bookIds lib data)[j]? ≠ some b)) := by
  obtain ⟨m1, hs, hf, hdata, _, _, _⟩ := setBooksData_fresh lib m data
  have ht : TreeOK lib m1 := FreshFor.treeOK lib m1 (by rw [hdata]; exact hf)
  refine ⟨m1, _, Node.rowNode
      { m_itemData := headerColumns lib, m_bookId := "", m_parentItem := none,
        m_childItems := rowPtrs data.length, m_downloadState := none }, hs, ?_, ?_, ?_, ?_, ?_⟩
  · simp [hf.root, hf.rootNode]
  · simp [Node.childCount, rowPtrs_length]
  · intro i bi hi
    have hlt : i < data.length := getElem?_lt_of_eq_some _ _ _ hi
    have hg : getRowNode m1 i = some (some (1 + 2 * i)) :=
      getRowNode_eq lib m1 ht i (by rw [hdata]; exact hlt)
    refine ⟨builtRowNode lib m1 bi i, ?_, rfl⟩
    simp [rowNodeAt, hg, getRow, hf.rows i bi hi]
  · intro b
    rw [hf.map]
    exact buildMap_contains _ b
  · intro b r
    rw [hf.map]
    exact buildMap_last _ b r

/-- Description index of any column `c2` in 0..5 under a row-level index. -/
theorem index_description_column (lib : Lib) (m : ContentManagerModel) (h : TreeOK lib m)
    (r : Nat) (c c2 : Int) (hc : 0 ≤ c) (hc2 : 0 ≤ c2 ∧ c2 < 6) (hn : r < m.m_data.length)
    (hz : (r : Int) < m.zimCount) :
    index m 0 c2 (createIndex (r : Int) c (1 + 2 * r)) = some (createIndex 0 c2 (2 + 2 * r)) := by
  obtain ⟨cols, ds, _, hrow⟩ := h.rows r _ (List.getElem?_eq_getElem hn)
  have hv : (createIndex (r : Int) c (1 + 2 * r)).isValid = true :=
    createIndex_isValid _ _ _ (by omega) hc
  have hz0 : (0 : Int) < m.zimCount := by omega
  have hcc : columnCount m (createIndex (r : Int) c (1 + 2 * r)) = some 6 := by
    simp only [columnCount, hv, if_true]
    simp [createIndex, hrow, Node.columnCount]
  have hneg : ¬ (c2 < 0) := by omega
  simp only [index, hasIndex, rowCount, hcc, hz0, hv, hneg]
  simp [createIndex, hrow, Node.child, hc2.2]

/-- C19 (as stated) fails: a description-node index is not always column 0.  In the
reachable state `exPaged`, `index(0, 1, index(0, 0))` is a valid index in column 1
that addresses the description node of row 0, and `data` returns the description
text `Text` on it, with no fetch request. -/
theorem C19_counterexample_description_column1 :
    Reachable exLib exPaged ∧
    index exPaged 0 0 QModelIndex.invalid = some (createIndex 0 0 1) ∧
    index exPaged 0 1 (createIndex 0 0 1) = some (createIndex 0 1 2) ∧
    (createIndex 0 1 2).isValid = true ∧ (createIndex 0 1 2).column = 1 ∧
    exPaged.heap[2]? = some (Node.descriptionNode { m_desc := "Text", m_parentItem := some 1 }) ∧
    data exLib exPaged (createIndex 0 1 2) DisplayRole = some (QVariant.string "Text", []) :=
  ⟨reachable_exPaged, by decide, by decide, by decide, rfl, by decide, by decide⟩

/-- C19 (amended): for a valid index and the display or the auxiliary-info role,
`data` on column 0 returns the null value or image bytes, never text; for a
description-node index with column 0 whose text `t` is non-empty and not a key of
the thumbnail cache it returns the null value and issues a fetch request with `t`
as the URL and the empty book id.  A description-node index need not have column
0: on a description-node index with another column `data` returns the text `t`
and requests nothing, and in every reachable state `index(0, c, index(r, 0))` is
such a valid description-node index for every paged-in row `r` that has a record
and every column `c` in 0..5. -/
theorem C19_data_column0_and_description (lib : Lib) (m : ContentManagerModel)
    (idx : QModelIndex) (role : Int) (p : Ptr) (node : Node) (r : Nat) (c : Int)
    (hrole : role = DisplayRole ∨ role = AdditionalInfoRole)
    (hvalid : idx.isValid = true)
    (hptr : idx.internalPointer = some p) (hnode : m.heap[p]? = some node) :
    (idx.column = 0 →
      ((∃ ev, data lib m idx role = some (QVariant.invalid, ev)) ∨
        (∃ bytes, data lib m idx role = some (QVariant.byteArray bytes, [])))) ∧
    (idx.column = 0 →
      ∀ (t : String) (par : Option Ptr),
        node = Node.descriptionNode { m_desc := t, m_parentItem := par } → t ≠ "" →
        QMap.constFind m.m_iconMap t = none →
        data lib m idx role = some (QVariant.invalid, [Event.addDownload t ""])) ∧
    (idx.column ≠ 0 →
      ∀ (t : String) (par : Option Ptr),
        node = Node.descriptionNode { m_desc := t, m_parentItem := par } →
        data lib m idx role = some (QVariant.string t, [])) ∧
    (Reachable lib m → (r : Int) < m.zimCount → r < m.m_data.length → 0 ≤ c → c < 6 →
      ∃ rowIdx d dp dn,
        index m (r : Int) 0 QModelIndex.invalid = some rowIdx ∧
        index m 0 c rowIdx = some d ∧ d.isValid = true ∧ d.column = c ∧
        d.internalPointer = some dp ∧ m.heap[dp]? = some (Node.descriptionNode dn)) := by
  have hr : (decide (role = DisplayRole) || decide (role = AdditionalInfoRole)) = true := by
    rcases hrole with h | h <;> simp [h]
  refine ⟨?_, ?_, ?_, ?_⟩
  · intro hcol
    have hd : data lib m idx role =
        if (getThumbnail lib m (node.data 0)).isByteArray = true then
          some (getThumbnail lib m (node.data 0), [])
        else if (getThumbnail lib m (node.data 0)).toString lib = "" then
          some (QVariant.invalid, [])
        else some (QVariant.invalid,
          [Event.addDownload ((getThumbnail lib m (node.data 0)).toString lib)
            node.getBookId]) := by
      simp [data, hr, hvalid, hptr, hnode, hcol]
    rw [hd]
    generalize getThumbnail lib m (node.data 0) = v
    cases v with
    | byteArray b => right; exact ⟨b, by simp [QVariant.isByteArray]⟩
    | invalid =>
      left
      simp only [QVariant.isByteArray, Bool.false_eq_true, if_false]
      split <;> exact ⟨_, rfl⟩
    | string s =>
      left
      simp only [QVariant.isByteArray, Bool.false_eq_true, if_false]
      split <;> exact ⟨_, rfl⟩
    | uLongLong n =>
      left
      simp only [QVariant.isByteArray, Bool.false_eq_true, if_false]
      split <;> exact ⟨_, rfl⟩
  · intro hcol t par hn hne hmiss
    subst hn
    simp [data, hr, hvalid, hptr, hnode, hcol, Node.data, getThumbnail,
      QVariant.isByteArray, QVariant.toString, hmiss, hne, Node.getBookId]
  · intro hcol t par hn
    subst hn
    simp [data, hr, hvalid, hptr, hnode, hcol, Node.data]
  · intro hm hz hn hc0 hc6
    rcases reachable_wf lib m hm with hu | ht
    · exfalso
      have := hu.2.2.2.2
      omega
    · obtain ⟨t, hdesc⟩ := ht.descs r hn
      refine ⟨createIndex (r : Int) 0 (1 + 2 * r), createIndex 0 c (2 + 2 * r), 2 + 2 * r, _,
        ?_, index_description_column lib m ht r 0 c (by omega) ⟨hc0, hc6⟩ hn hz,
        createIndex_isValid _ _ _ (by omega) hc0, rfl, rfl, hdesc⟩
      rw [index_top lib m ht r 0]
      simp [hz, hn]

/-- C19 (amended) at the description node of row 0 of `exPaged`, whose text is
`Text`, addressed in column 1. -/
theorem C19_data_column0_and_description_witness :
    (DisplayRole = DisplayRole ∨ DisplayRole = AdditionalInfoRole) ∧
    (createIndex 0 1 2).isValid = true ∧
    (createIndex 0 1 2).internalPointer = some 2 ∧
    exPaged.heap[2]? = some (Node.descriptionNode { m_desc := "Text", m_parentItem := some 1 }) ∧
    (createIndex 0 1 2).column ≠ 0 ∧
    data exLib exPaged (createIndex 0 1 2) DisplayRole = some (QVariant.string "Text", []) ∧
    ∃ rowIdx d dp dn,
      index exPaged ((0 : Nat) : Int) 0 QModelIndex.invalid = some rowIdx ∧
      index exPaged 0 1 rowIdx = some d ∧ d.isValid = true ∧ d.column = 1 ∧
      d.internalPointer = some dp ∧ exPaged.heap[dp]? = some (Node.descriptionNode dn) :=
  ⟨Or.inl rfl, by decide, rfl, by decide, by decide,
    (C19_data_column0_and_description exLib exPaged (createIndex 0 1 2) DisplayRole 2
      (Node.descriptionNode { m_desc := "Text", m_parentItem := some 1 }) 0 1
      (Or.inl rfl) (by decide) rfl (by decide)).2.2.1 (by decide) "Text" (some 1) rfl,
    (C19_data_column0_and_description exLib exPaged (createIndex 0 1 2) DisplayRole 2
      (Node.descriptionNode { m_desc := "Text", m_parentItem := some 1 }) 0 1
      (Or.inl rfl) (by decide) rfl (by decide)).2.2.2 reachable_exPaged (by decide)
      (by decide) (by decide) (by decide)⟩

/-- C20: for every cursor `c` and record count `n`, with no assumption `c ≤ n`,
top-level `fetchMore` leaves the cursor at `min (c + 5) n`, never above `n`; it
keeps the cursor when `c = n` and lowers it to `n` when `c > n`, and in these two
cases the announced range `c .. c + k - 1` has `k = min 5 (n - c) ≤ 0`, so its
last row lies before its first, while `canFetchMore` is false. -/
theorem C20_fetchMore_any_cursor (m : ContentManagerModel) :
    (fetchMore m QModelIndex.invalid).1.zimCount
      = min (m.zimCount + 5) (m.m_data.length : Int) ∧
    (fetchMore m QModelIndex.invalid).1.zimCount ≤ (m.m_data.length : Int) ∧
    (m.zimCount = (m.m_data.length : Int) →
      (fetchMore m QModelIndex.invalid).1.zimCount = m.zimCount) ∧
    ((m.m_data.length : Int) < m.zimCount →
      (fetchMore m QModelIndex.invalid).1.zimCount = (m.m_data.length : Int)) ∧
    (fetchMore m QModelIndex.invalid).2
      = [Event.rowsAboutToBeInserted QModelIndex.invalid m.zimCount
          (m.zimCount + min 5 ((m.m_data.length : Int) - m.zimCount) - 1),
         Event.rowsInserted QModelIndex.invalid m.zimCount
          (m.zimCount + min 5 ((m.m_data.length : Int) - m.zimCount) - 1)] ∧
    ((m.m_data.length : Int) ≤ m.zimCount →
      min 5 ((m.m_data.length : Int) - m.zimCount) ≤ 0 ∧
      m.zimCount + min 5 ((m.m_data.length : Int) - m.zimCount) - 1 < m.zimCount ∧
      canFetchMore m QModelIndex.invalid = false) := by
  refine ⟨?_, ?_, ?_, ?_, ?_, ?_⟩
  · rw [fetchMore_top_zimCount]; omega
  · rw [fetchMore_top_zimCount]; omega
  · intro h; rw [fetchMore_top_zimCount]; omega
  · intro h; rw [fetchMore_top_zimCount]; omega
  · simp [fetchMore, invalid_isValid]
  · intro h
    refine ⟨by omega, by omega, ?_⟩
    simp [canFetchMore, invalid_isValid, h]

/-- With a cursor and a record count in `0 .. 2^31 - 1`, as in every state the
program reaches, no intermediate value of `fetchMore` leaves the range of a
32-bit `int`. -/
theorem fetchMore_within_int_range (m : ContentManagerModel) (hc : 0 ≤ m.zimCount)
    (hc2 : m.zimCount < 2 ^ 31) (hn : (m.m_data.length : Int) < 2 ^ 31) :
    -(2 ^ 31) ≤ (m.m_data.length : Int) - m.zimCount ∧
    (m.m_data.length : Int) - m.zimCount < 2 ^ 31 ∧
    -(2 ^ 31) ≤ m.zimCount + min 5 ((m.m_data.length : Int) - m.zimCount) - 1 ∧
    m.zimCount + min 5 ((m.m_data.length : Int) - m.zimCount) < 2 ^ 31 := by
  refine ⟨by omega, by omega, by omega, by omega⟩

end Kiwix
